import Mathlib

/-!
Verification development for the NAACL 2019 Whova app-agenda generator
(`appagenda/generate.py` and `appagenda/utils.py`).

The Python code is shallowly embedded: the schedule tree (days, session
groups, sessions, presentation items) becomes a family of Lean structures,
and every `to_rows` method becomes a Lean function that returns both the
produced rows and the updated node (the Python code mutates its input nodes
in place; the embedding makes that state change explicit by returning the
post-call node).  Fallible operations (Python `IndexError` from `items[0]`
on an empty list, `KeyError` from an unknown dictionary key, pandas column
selection on a column-less frame) are embedded with `Option`, `none`
standing for a raised exception.

Python string operations used by the source (`split`, `startswith`,
`endswith`, `in`) are embedded as structurally recursive functions over the
character list of a `String`, so that concrete runs reduce inside the
kernel.
-/

namespace AppAgenda2019

/-- Does the first list lead (appear as an initial segment of) the second?
Used to embed Python `str.startswith` and `str.endswith`. -/
def listLeads : List Char → List Char → Bool
  | [], _ => true
  | _ :: _, [] => false
  | p :: ps, c :: cs => p == c && listLeads ps cs

/-- Embeds Python `s.startswith(pre)`. -/
def pyStartsWith (s pre : String) : Bool :=
  listLeads pre.data s.data

/-- Embeds Python `s.endswith(suf)`. -/
def pyEndsWith (s suf : String) : Bool :=
  listLeads suf.data.reverse s.data.reverse

/-- Embeds Python `c in s` for a single character `c`. -/
def pyContains (s : String) (c : Char) : Bool :=
  s.data.contains c

/-- If `sep` leads `l`, return the remainder of `l` after `sep`. -/
def dropLead : List Char → List Char → Option (List Char)
  | [], l => some l
  | _ :: _, [] => none
  | p :: ps, c :: cs => if p == c then dropLead ps cs else none

/-- Split a character list on a non-empty separator; `cur` holds the
(reversed) characters of the current piece and `fuel` bounds the recursion
(any `fuel ≥ l.length` gives the exact Python `str.split` behaviour). -/
def splitChars (sep : List Char) : Nat → List Char → List Char → List (List Char)
  | _, cur, [] => [cur.reverse]
  | 0, cur, l => [cur.reverse ++ l]
  | fuel + 1, cur, c :: cs =>
    match dropLead sep (c :: cs) with
    | some rest => cur.reverse :: splitChars sep fuel [] rest
    | none => splitChars sep fuel (c :: cur) cs

/-- Embeds Python `s.split(sep)` for a non-empty separator `sep`. -/
def pySplit (s sep : String) : List String :=
  (splitChars sep.data s.data.length [] s.data).map (fun l => ⟨l⟩)

/-- Add an element to a list acting as an insertion-ordered set, embedding
`set.add` of a Python set (membership is exact, iteration order is the
model's canonical first-insertion order). -/
def addToSet (l : List String) (x : String) : List String :=
  if l.contains x then l else l ++ [x]

/-- The insertion-ordered deduplication of a list, embedding the contents
of the Python set built by inserting the elements in list order. -/
def dedupFirst (l : List String) : List String :=
  l.foldl addToSet []

/-- Metadata record for a presentation item, as delivered by the external
`ScheduleMetadata` provider (`metadata.lookup(id_, event)`). -/
structure ItemMetadata where
  title : String
  authors : List String
  abstract : String
  pdf_url : String
  video_url : String
deriving Repr, DecidableEq

/-- The external metadata provider: total at the interface boundary,
keyed by item identifier and event. -/
abbrev Metadata : Type := String → String → ItemMetadata

/-- A presentation item of the schedule tree (`orderfile.Item` /
`AppItem`).  `title`, `authors`, `pdf_url` and `video_url` are the
attributes that `AppItem.to_rows` writes onto the object from the metadata
lookup; `location` is optional because the source guards it with
`hasattr`.  Absent start/end times are the empty string (Python falsiness
of `''`). -/
@[ext]
structure Item where
  id_ : String
  type : String
  start : String
  end_ : String
  location : Option String
  title : String
  authors : String
  pdf_url : String
  video_url : String
deriving Repr, DecidableEq

/-- A session of the schedule tree (`orderfile.Session` / `AppSession`).
The trailing six fields are the attributes that the `plenary` branch of
`AppSession.to_rows` writes onto the object. -/
@[ext]
structure Session where
  type : String
  title : String
  location : String
  chair : String
  start : String
  end_ : String
  items : List Item
  abstract : String
  person : String
  person_affiliation : String
  person_url : String
  pdf_url : String
  video_url : String
deriving Repr, DecidableEq

/-- A session group (`orderfile.SessionGroup` / `AppSessionGroup`). -/
@[ext]
structure SessionGroup where
  title : String
  start : String
  end_ : String
  sessions : List Session
deriving Repr, DecidableEq

/-- A day's content: the tagged union of session groups and sessions. -/
inductive Content where
  | group : SessionGroup → Content
  | session : Session → Content
deriving Repr, DecidableEq

/-- A day of the schedule (`orderfile.Day`).  `date` holds the formatted
date string `day.datetime.strftime('%m/%d/%Y')`. -/
@[ext]
structure Day where
  date : String
  contents : List Content
deriving Repr, DecidableEq

/-- The full agenda (`AppAgenda`): the event identifier plus the days. -/
@[ext]
structure Agenda where
  event : String
  days : List Day
deriving Repr, DecidableEq

/-- One record of the plenary-info table: the tuple
`(abstract, person, person_affiliation, person_url, pdf_url, video_url)`
parsed from the plenary info file. -/
structure PlenaryRecord where
  abstract : String
  person : String
  person_affiliation : String
  person_url : String
  pdf_url : String
  video_url : String
deriving Repr, DecidableEq

/-- The plenary-info table: a `dict` keyed by title prefixes.  Python
dictionaries iterate in insertion order, so the embedding is an
association list. -/
abbrev PlenaryInfo : Type := List (String × PlenaryRecord)

/-- A produced agenda row: a fixed list of ten string fields
`[date, start, end, tracks, title, location, description, authors, blank,
kind]`. -/
abbrev Row : Type := List String

/-- The module-level `SESSION_TRACK_DISPLAY_DICT` of `generate.py`
(identical copy in `utils.py`). -/
def SESSION_TRACK_DISPLAY_DICT : List (String × String) :=
  [("srw", "SRW"), ("tacl", "TACL"), ("demos", "Demos"), ("industry", "Industry")]

/-- Look up every suffix in `SESSION_TRACK_DISPLAY_DICT`; `none` embeds the
`KeyError` raised by `SESSION_TRACK_DISPLAY_DICT[item_track]` on an
unknown key. -/
def lookupAll : List String → Option (List String)
  | [] => some []
  | t :: ts =>
    match SESSION_TRACK_DISPLAY_DICT.lookup t, lookupAll ts with
    | some d, some ds => some (d :: ds)
    | _, _ => none

/-- Embeds `get_tracks_for_session` of `generate.py`.  The Python code
collects the item id suffixes in a `set`, whose iteration order is
unspecified; the parameter `ord` models that enumeration order applied to
the canonical insertion-ordered contents (an honest model instantiates
`ord` with any permutation).  `none` embeds the uncaught `KeyError` on a
suffix missing from `SESSION_TRACK_DISPLAY_DICT`. -/
def get_tracks_for_session_ord (ord : List String → List String)
    (session : Session) (event : String) : Option String :=
  if event == "main" then
    if session.type == "paper" || session.type == "poster"
        || session.type == "best_paper" then
      let item_tracks := ord (dedupFirst
        (((session.items.filter (fun item => pyContains item.id_ '-')).map
          (fun item => (pySplit item.id_ "-").getD 1 ""))))
      if item_tracks.length > 0 then
        match lookupAll item_tracks with
        | some ds => some ("Research" ++ "; " ++ String.intercalate "; " ds)
        | none => none
      else some "Research"
    else some ""
  else some event

/-- `get_tracks_for_session` with the canonical (first-insertion)
enumeration order of the suffix set; this is the function the row
assembly below uses (within one Python process the enumeration order of
the same set is fixed, so one fixed order is the faithful model of one
run of the program). -/
def get_tracks_for_session (session : Session) (event : String) : Option String :=
  get_tracks_for_session_ord (fun l => l) session event

/-- Embeds the loop body of `get_tracks_for_session` of `utils.py`: per
item, `id_.split('-')[1]` under `try/except IndexError` adds `'Main'`
when there is no second component, otherwise
`SESSION_TRACK_DISPLAY_DICT[item_track]` is added (`none` embeds the
uncaught `KeyError` on an unknown suffix). -/
def utilsTracksLoop : List Item → List String → Option (List String)
  | [], acc => some acc
  | item :: rest, acc =>
    match (pySplit item.id_ "-").get? 1 with
    | none => utilsTracksLoop rest (addToSet acc "Main")
    | some t =>
      match SESSION_TRACK_DISPLAY_DICT.lookup t with
      | some d => utilsTracksLoop rest (addToSet acc d)
      | none => none

/-- Embeds `get_tracks_for_session` of `utils.py` (the variant without the
`'Research'` base label; `tracks = '; '.join(session_tracks)` runs inside
the item loop, so with no items the initial `''` survives). -/
def utils_get_tracks_for_session (session : Session) (event : String) : Option String :=
  if event == "main" then
    if session.type == "paper" || session.type == "poster"
        || session.type == "best_paper" then
      match utilsTracksLoop session.items [] with
      | some acc => some (if session.items.isEmpty then "" else String.intercalate "; " acc)
      | none => none
    else some ""
  else some event

/-- Embeds `AppItem.to_rows` of `generate.py`.  Returns the produced row
together with the item as it stands after the call (the Python method
assigns `self.title`, `self.authors`, `self.pdf_url` and `self.video_url`
from the metadata lookup). -/
def AppItem.to_rows (item : Item) (date : String) (event : String) (metadata : Metadata)
    (pdf_links : Bool) (video_links : Bool) : Row × Item :=
  let item_metadata := metadata item.id_ event
  let item := { item with
    title := item_metadata.title
    authors := String.intercalate "; " item_metadata.authors
    pdf_url := item_metadata.pdf_url
    video_url := item_metadata.video_url }
  let description := "<p>" ++ item_metadata.abstract ++ "</p>"
  let tracks :=
    if event == "main" then
      if pyEndsWith item.id_ "-srw" then "SRW"
      else if pyEndsWith item.id_ "-tacl" then "TACL"
      else if pyEndsWith item.id_ "-demos" then "Demos"
      else if pyEndsWith item.id_ "-industry" then "Industry"
      else if pyEndsWith item.id_ "-tutorial" then "Tutorial"
      else "Research"
    else event
  let description := if pdf_links && item.pdf_url != "" then
      description ++ " [<a href=\"" ++ item.pdf_url ++ "\">PDF</>]" else description
  let description := if video_links && item.video_url != "" then
      description ++ " [<a href=\"" ++ item.video_url ++ "\">VIDEO</a>]" else description
  let session_or_sub := if item.type == "tutorial" then "Session" else "Sub"
  ([date, item.start, item.end_, tracks, item.title,
    item.location.getD "", description, item.authors, "", session_or_sub], item)

/-- Embeds the time-inheritance step of the item loop in
`AppSession.to_rows`: items of type `tutorial` or `poster` receive the
containing session's (already resolved) start and end times. -/
def inheritTimes (s_start s_end : String) (item : Item) : Item :=
  if item.type == "tutorial" || item.type == "poster" then
    { item with start := s_start, end_ := s_end }
  else item

/-- Embeds the item loop at the end of `AppSession.to_rows`: each item is
time-inherited where applicable and converted to its row; the updated
items are collected alongside the rows (the Python loop mutates the items
stored in the session's list). -/
def itemsLoop (s_start s_end : String) (date : String) (event : String) (metadata : Metadata)
    (pdf_links video_links : Bool) : List Item → List Row × List Item
  | [] => ([], [])
  | item :: rest =>
    let p := AppItem.to_rows (inheritTimes s_start s_end item)
      date event metadata pdf_links video_links
    let q := itemsLoop s_start s_end date event metadata pdf_links video_links rest
    (p.1 :: q.1, p.2 :: q.2)

/-- Embeds the `description` assignment of the `paper`/`best_paper`
branch of `AppSession.to_rows`:
`'<p>Chair: {}</p>'.format(self.chair) if self.chair else ''`. -/
def chairDescription (s : Session) : String :=
  if s.chair != "" then "<p>Chair: " ++ s.chair ++ "</p>" else ""

/-- Embeds the field updates of the `plenary` branch of
`AppSession.to_rows`: the source first resets `abstract`, `person`,
`person_url`, `pdf_url` and `video_url` to `''` (note that it does not
reset `person_affiliation`) and then overwrites all six speaker fields
from the first entry of `plenary_info` whose key is a prefix of the
session title, if any; the reset leaves the title untouched, so the two
phases collapse into the single `match` below. -/
def plenaryApply (s : Session) (plenary_info : PlenaryInfo) : Session :=
  match plenary_info.find? (fun entry => pyStartsWith s.title entry.1) with
  | some entry => { s with
      abstract := entry.2.abstract
      person := entry.2.person
      person_affiliation := entry.2.person_affiliation
      person_url := entry.2.person_url
      pdf_url := entry.2.pdf_url
      video_url := entry.2.video_url }
  | none => { s with abstract := "", person := "", person_url := "",
                     pdf_url := "", video_url := "" }

/-- Embeds the `description` assembly of the `plenary` branch (on the
session as updated by `plenaryApply`): the abstract in a `<p>` wrapper,
plus the optional PDF and video link markers. -/
def plenaryDescription (s : Session) (pdf_links video_links : Bool) : String :=
  let description := "<p>" ++ s.abstract ++ "</p>"
  let description := if pdf_links && s.pdf_url != "" then
      description ++ " [<a href=\"" ++ s.pdf_url ++ "\">PDF</>]" else description
  if video_links && s.video_url != "" then
      description ++ " [<a href=\"" ++ s.video_url ++ "\">VIDEO</a>]" else description

/-- Embeds the per-type preparation phase of `AppSession.to_rows` (the
`if/elif` chain on `self.type`): time resolution for `tutorial`, `paper`
and `best_paper` sessions without start/end, the chair description for
`paper`/`best_paper`, and the plenary-info lookup for `plenary`.  Returns
the session as mutated by that phase together with the computed
`description` and `authors`; `none` embeds the `IndexError` raised by
`self.items[0]` on an empty item list. -/
def sessionStep (s : Session) (pdf_links video_links : Bool)
    (plenary_info : PlenaryInfo) : Option (Session × String × String) :=
  if s.type == "tutorial" then
    if s.start == "" && s.end_ == "" then
      match s.items.head? with
      | none => none
      | some item0 => some ({ s with start := item0.start, end_ := item0.end_ }, "", "")
    else some (s, "", "")
  else if s.type == "paper" || s.type == "best_paper" then
    if s.start == "" && s.end_ == "" then
      match s.items.head?, s.items.getLast? with
      | some item0, some itemN =>
        some ({ s with start := item0.start, end_ := itemN.end_ }, chairDescription s, "")
      | _, _ => none
    else some (s, chairDescription s, "")
  else if s.type == "plenary" then
    some (plenaryApply s plenary_info,
          plenaryDescription (plenaryApply s plenary_info) pdf_links video_links,
          (plenaryApply s plenary_info).person)
  else some (s, "", "")

/-- Embeds `AppSession.to_rows` of `generate.py`.  Returns the produced
rows together with the session as it stands after the call; `none` embeds
an uncaught exception (`KeyError` from the track lookup or `IndexError`
from time resolution on an empty item list). -/
def AppSession.to_rows (s : Session) (date : String) (event : String) (metadata : Metadata)
    (pdf_links video_links : Bool) (plenary_info : PlenaryInfo) :
    Option (List Row × Session) :=
  match get_tracks_for_session s event with
  | none => none
  | some tracks =>
    match sessionStep s pdf_links video_links plenary_info with
    | none => none
    | some (s, description, authors) =>
      let head_rows : List Row :=
        if s.type != "tutorial" then
          [[date, s.start, s.end_, tracks, s.title, s.location,
            description, authors, "", "Session"]]
        else []
      let p := itemsLoop s.start s.end_ date event metadata pdf_links video_links s.items
      some (head_rows ++ p.1, { s with items := p.2 })

/-- Embeds the session loop of `AppSessionGroup.to_rows`: sessions lacking
both start and end inherit the group's times, then each session is
converted via `AppSession.to_rows`; updated sessions are collected
alongside the rows. -/
def groupLoop (g_start g_end : String) (date : String) (event : String) (metadata : Metadata)
    (pdf_links video_links : Bool) (plenary_info : PlenaryInfo) :
    List Session → Option (List Row × List Session)
  | [] => some ([], [])
  | s :: rest =>
    let s := if s.start == "" && s.end_ == "" then
        { s with start := g_start, end_ := g_end } else s
    match AppSession.to_rows s date event metadata pdf_links video_links plenary_info with
    | none => none
    | some (rows, s) =>
      match groupLoop g_start g_end date event metadata pdf_links video_links
          plenary_info rest with
      | none => none
      | some (rest_rows, rest_sessions) => some (rows ++ rest_rows, s :: rest_sessions)

/-- Embeds `AppSessionGroup.to_rows` of `generate.py`. -/
def AppSessionGroup.to_rows (g : SessionGroup) (date : String) (event : String)
    (metadata : Metadata) (pdf_links video_links : Bool) (plenary_info : PlenaryInfo) :
    Option (List Row × SessionGroup) :=
  match groupLoop g.start g.end_ date event metadata pdf_links video_links
      plenary_info g.sessions with
  | none => none
  | some (rows, sessions) => some (rows, { g with sessions := sessions })

/-- Embeds the dispatch over one day's contents in `AppAgenda.to_rows`:
session groups and sessions are converted in order and the results
concatenated. -/
def contentsLoop (date : String) (event : String) (metadata : Metadata)
    (pdf_links video_links : Bool) (plenary_info : PlenaryInfo) :
    List Content → Option (List Row × List Content)
  | [] => some ([], [])
  | Content.group g :: rest =>
    match AppSessionGroup.to_rows g date event metadata pdf_links video_links
        plenary_info with
    | none => none
    | some (rows, g) =>
      match contentsLoop date event metadata pdf_links video_links plenary_info rest with
      | none => none
      | some (rest_rows, rest_contents) =>
        some (rows ++ rest_rows, Content.group g :: rest_contents)
  | Content.session s :: rest =>
    match AppSession.to_rows s date event metadata pdf_links video_links plenary_info with
    | none => none
    | some (rows, s) =>
      match contentsLoop date event metadata pdf_links video_links plenary_info rest with
      | none => none
      | some (rest_rows, rest_contents) =>
        some (rows ++ rest_rows, Content.session s :: rest_contents)

/-- Embeds the day loop of `AppAgenda.to_rows`. -/
def daysLoop (event : String) (metadata : Metadata) (pdf_links video_links : Bool)
    (plenary_info : PlenaryInfo) : List Day → Option (List Row × List Day)
  | [] => some ([], [])
  | day :: rest =>
    match contentsLoop day.date event metadata pdf_links video_links plenary_info
        day.contents with
    | none => none
    | some (rows, contents) =>
      match daysLoop event metadata pdf_links video_links plenary_info rest with
      | none => none
      | some (rest_rows, rest_days) =>
        some (rows ++ rest_rows, { day with contents := contents } :: rest_days)

/-- Embeds `AppAgenda.to_rows` of `generate.py` (the flattening of the
whole schedule tree into the ordered row sequence).  Returns the rows and
the tree as it stands after the call. -/
def AppAgenda.to_rows (a : Agenda) (metadata : Metadata) (pdf_links video_links : Bool)
    (plenary_info : PlenaryInfo) : Option (List Row × Agenda) :=
  match daysLoop a.event metadata pdf_links video_links plenary_info a.days with
  | none => none
  | some (rows, days) => some (rows, { a with days := days })

/-- One attendee/speaker record: the columns
`Professional Name`, `Email`, `Affiliation`. -/
@[ext]
structure AttendeeRecord where
  name : String
  email : String
  affiliation : String
deriving Repr, DecidableEq

/-- Embeds `row[-3]` (the authors field of an agenda row); `none` embeds
the `IndexError` on a row with fewer than three fields. -/
def authorsField (row : Row) : Option String :=
  if row.length < 3 then none else (row : List String).get? (row.length - 3)

/-- Embeds the speaker-collection loop of `classify_attendees` in
`utils.py`: for each row, when the authors field is non-empty, its
`'; '`-split parts are added to the speaker set (modelled in insertion
order). -/
def collectSpeakers : List Row → List String → Option (List String)
  | [], acc => some acc
  | row :: rest, acc =>
    match authorsField row with
    | none => none
    | some speaker_string =>
      if speaker_string == "" then collectSpeakers rest acc
      else collectSpeakers rest ((pySplit speaker_string "; ").foldl addToSet acc)

/-- Embeds `df_speakers.drop_duplicates(subset=['Professional Name',
'Email'])`: keep the first record for every (name, email) pair. -/
def dropDupNameEmail : List AttendeeRecord → List (String × String) → List AttendeeRecord
  | [], _ => []
  | a :: rest, seen =>
    if seen.contains (a.name, a.email) then dropDupNameEmail rest seen
    else a :: dropDupNameEmail rest ((a.name, a.email) :: seen)

/-- Embeds `classify_attendees` of `utils.py` on the branch where an
attendees file is supplied; `df_attendees` is the roster read from that
file, in file order.  `none` embeds an uncaught exception: the
`IndexError` on a malformed row, or the `KeyError` raised by
`df_unmatched_speakers[['Professional Name', 'Email', 'Affiliation']]`
when `missing_speaker_dicts` is empty (pandas `DataFrame([])` has no
columns, so the column selection fails). -/
def classify_attendees (agenda_rows : List Row) (df_attendees : List AttendeeRecord) :
    Option (List AttendeeRecord × List AttendeeRecord) :=
  match collectSpeakers agenda_rows [] with
  | none => none
  | some speakers =>
    let df_matched_speakers := df_attendees.filter (fun a => speakers.contains a.name)
    let df_non_speaker_attendees :=
      df_attendees.filter (fun a => !(speakers.contains a.name))
    let missing_speaker_names :=
      speakers.filter (fun n => !((df_matched_speakers.map (fun a => a.name)).contains n))
    match missing_speaker_names with
    | [] => none
    | _ :: _ =>
      let df_unmatched_speakers :=
        missing_speaker_names.map (fun n => AttendeeRecord.mk n "" "")
      let df_speakers :=
        dropDupNameEmail (df_matched_speakers ++ df_unmatched_speakers) []
      some (df_speakers, df_non_speaker_attendees)

/-! ### Basic lemmas about item row assembly -/

theorem AppItem.to_rows_snd (item : Item) (date : String) (event : String) (metadata : Metadata)
    (pdf_links video_links : Bool) :
    (AppItem.to_rows item date event metadata pdf_links video_links).2 =
      { item with
        title := (metadata item.id_ event).title
        authors := String.intercalate "; " (metadata item.id_ event).authors
        pdf_url := (metadata item.id_ event).pdf_url
        video_url := (metadata item.id_ event).video_url } := rfl

theorem AppItem.to_rows_idem (item : Item) (date : String) (event : String) (metadata : Metadata)
    (pdf_links video_links : Bool) :
    AppItem.to_rows (AppItem.to_rows item date event metadata pdf_links video_links).2
        date event metadata pdf_links video_links =
      AppItem.to_rows item date event metadata pdf_links video_links := rfl

theorem inheritTimes_id_ (st en : String) (item : Item) :
    (inheritTimes st en item).id_ = item.id_ := by
  unfold inheritTimes; split <;> rfl

theorem inheritTimes_type (st en : String) (item : Item) :
    (inheritTimes st en item).type = item.type := by
  unfold inheritTimes; split <;> rfl

theorem inheritTimes_stable (st en : String) (item : Item)
    (hs : item.start = st) (he : item.end_ = en) :
    inheritTimes st en item = item := by
  unfold inheritTimes
  split
  · cases item
    simp_all
  · rfl

theorem AppItem.to_rows_kind (item : Item) (date : String) (event : String) (metadata : Metadata)
    (pdf_links video_links : Bool) :
    ((AppItem.to_rows item date event metadata pdf_links video_links).1).getD 9 "" =
      (if item.type == "tutorial" then "Session" else "Sub") := by
  simp [AppItem.to_rows, List.getD]

theorem AppItem.to_rows_start (item : Item) (date : String) (event : String) (metadata : Metadata)
    (pdf_links video_links : Bool) :
    ((AppItem.to_rows item date event metadata pdf_links video_links).1).getD 1 "" =
      item.start := by
  simp [AppItem.to_rows, List.getD]

theorem AppItem.to_rows_end (item : Item) (date : String) (event : String) (metadata : Metadata)
    (pdf_links video_links : Bool) :
    ((AppItem.to_rows item date event metadata pdf_links video_links).1).getD 2 "" =
      item.end_ := by
  simp [AppItem.to_rows, List.getD]

theorem itemsLoop_eq (s_start s_end : String) (date : String) (event : String)
    (metadata : Metadata) (pdf_links video_links : Bool) (items : List Item) :
    itemsLoop s_start s_end date event metadata pdf_links video_links items =
      (items.map (fun i => (AppItem.to_rows (inheritTimes s_start s_end i)
          date event metadata pdf_links video_links).1),
       items.map (fun i => (AppItem.to_rows (inheritTimes s_start s_end i)
          date event metadata pdf_links video_links).2)) := by
  induction items with
  | nil => rfl
  | cons i rest ih => simp [itemsLoop, ih]

/-! ### Lemmas about the session preparation phase -/

@[simp]
theorem plenaryApply_type (s : Session) (pl : PlenaryInfo) :
    (plenaryApply s pl).type = s.type := by
  unfold plenaryApply; split <;> rfl

@[simp]
theorem plenaryApply_title (s : Session) (pl : PlenaryInfo) :
    (plenaryApply s pl).title = s.title := by
  unfold plenaryApply; split <;> rfl

@[simp]
theorem plenaryApply_location (s : Session) (pl : PlenaryInfo) :
    (plenaryApply s pl).location = s.location := by
  unfold plenaryApply; split <;> rfl

@[simp]
theorem plenaryApply_chair (s : Session) (pl : PlenaryInfo) :
    (plenaryApply s pl).chair = s.chair := by
  unfold plenaryApply; split <;> rfl

@[simp]
theorem plenaryApply_start (s : Session) (pl : PlenaryInfo) :
    (plenaryApply s pl).start = s.start := by
  unfold plenaryApply; split <;> rfl

@[simp]
theorem plenaryApply_end (s : Session) (pl : PlenaryInfo) :
    (plenaryApply s pl).end_ = s.end_ := by
  unfold plenaryApply; split <;> rfl

@[simp]
theorem plenaryApply_items (s : Session) (pl : PlenaryInfo) :
    (plenaryApply s pl).items = s.items := by
  unfold plenaryApply; split <;> rfl

theorem sessionStep_pres (s : Session) (pdf_links video_links : Bool)
    (plenary_info : PlenaryInfo) (s₁ : Session) (d a : String)
    (h : sessionStep s pdf_links video_links plenary_info = some (s₁, d, a)) :
    s₁.type = s.type ∧ s₁.items = s.items ∧ s₁.title = s.title ∧
      s₁.location = s.location ∧ s₁.chair = s.chair := by
  unfold sessionStep at h
  repeat' split at h
  all_goals try exact (Option.noConfusion h)
  all_goals (
    rw [Option.some.injEq, Prod.mk.injEq, Prod.mk.injEq] at h
    obtain ⟨h1, -, -⟩ := h
    subst h1
    simp)

theorem chairDescription_congr (s t : Session) (h : t.chair = s.chair) :
    chairDescription t = chairDescription s := by
  unfold chairDescription; rw [h]

theorem inheritTimes_start_of_eq (st en : String) (item : Item) (h : item.start = st) :
    (inheritTimes st en item).start = item.start := by
  unfold inheritTimes; split <;> simp [h]

theorem inheritTimes_end_of_eq (st en : String) (item : Item) (h : item.end_ = en) :
    (inheritTimes st en item).end_ = item.end_ := by
  unfold inheritTimes; split <;> simp [h]

/-! ### Congruence of track classification -/

theorem map_filter_id_ (g : String → Bool) (f : String → String) (items : List Item) :
    ((items.filter (fun i => g i.id_)).map (fun i => f i.id_)) =
      ((items.map (fun i => i.id_)).filter g).map f := by
  induction items with
  | nil => rfl
  | cons i rest ih => by_cases h : g i.id_ <;> simp [h, ih]

/-- Track classification of a session depends only on its type and the
identifiers of its items. -/
theorem get_tracks_congr (s t : Session) (event : String)
    (hty : t.type = s.type)
    (hids : t.items.map (fun i => i.id_) = s.items.map (fun i => i.id_)) :
    get_tracks_for_session t event = get_tracks_for_session s event := by
  unfold get_tracks_for_session get_tracks_for_session_ord
  rw [hty,
    map_filter_id_ (fun x => pyContains x '-') (fun x => (pySplit x "-").getD 1 "") t.items,
    map_filter_id_ (fun x => pyContains x '-') (fun x => (pySplit x "-").getD 1 "") s.items,
    hids]

/-! ### The preparation phase acts as the identity on already-resolved
sessions -/

theorem plenaryApply_fields_some (s : Session) (pl : PlenaryInfo)
    (entry : String × PlenaryRecord)
    (hf : pl.find? (fun entry => pyStartsWith s.title entry.1) = some entry) :
    (plenaryApply s pl).abstract = entry.2.abstract ∧
    (plenaryApply s pl).person = entry.2.person ∧
    (plenaryApply s pl).person_affiliation = entry.2.person_affiliation ∧
    (plenaryApply s pl).person_url = entry.2.person_url ∧
    (plenaryApply s pl).pdf_url = entry.2.pdf_url ∧
    (plenaryApply s pl).video_url = entry.2.video_url := by
  unfold plenaryApply
  rw [hf]
  simp

theorem plenaryApply_fields_none (s : Session) (pl : PlenaryInfo)
    (hf : pl.find? (fun entry => pyStartsWith s.title entry.1) = none) :
    (plenaryApply s pl).abstract = "" ∧ (plenaryApply s pl).person = "" ∧
    (plenaryApply s pl).person_url = "" ∧ (plenaryApply s pl).pdf_url = "" ∧
    (plenaryApply s pl).video_url = "" := by
  unfold plenaryApply
  rw [hf]
  simp

theorem plenaryApply_eq_self (t : Session) (pl : PlenaryInfo)
    (h : ∀ entry, pl.find? (fun entry => pyStartsWith t.title entry.1) = some entry →
      t.abstract = entry.2.abstract ∧ t.person = entry.2.person ∧
      t.person_affiliation = entry.2.person_affiliation ∧
      t.person_url = entry.2.person_url ∧ t.pdf_url = entry.2.pdf_url ∧
      t.video_url = entry.2.video_url)
    (h0 : pl.find? (fun entry => pyStartsWith t.title entry.1) = none →
      t.abstract = "" ∧ t.person = "" ∧ t.person_url = "" ∧
      t.pdf_url = "" ∧ t.video_url = "") :
    plenaryApply t pl = t := by
  unfold plenaryApply
  cases hf : pl.find? (fun entry => pyStartsWith t.title entry.1) with
  | none =>
    obtain ⟨a1, a2, a3, a4, a5⟩ := h0 hf
    ext <;> simp_all
  | some entry =>
    obtain ⟨a1, a2, a3, a4, a5, a6⟩ := h entry hf
    ext <;> simp_all

/-- `plenaryApply` is stable on a session it has already processed, even
after the item list has been replaced. -/
theorem plenaryApply_stable (s : Session) (pl : PlenaryInfo) (l : List Item) :
    plenaryApply { plenaryApply s pl with items := l } pl =
      { plenaryApply s pl with items := l } := by
  apply plenaryApply_eq_self
  · intro entry hf
    simp only [plenaryApply_title] at hf
    have hfs := plenaryApply_fields_some s pl entry hf
    exact ⟨hfs.1, hfs.2.1, hfs.2.2.1, hfs.2.2.2.1, hfs.2.2.2.2.1, hfs.2.2.2.2.2⟩
  · intro hf
    simp only [plenaryApply_title] at hf
    have hfn := plenaryApply_fields_none s pl hf
    exact ⟨hfn.1, hfn.2.1, hfn.2.2.1, hfn.2.2.2.1, hfn.2.2.2.2⟩

theorem sessionStep_id_tutorial (t : Session) (p v : Bool) (pl : PlenaryInfo)
    (hty : t.type = "tutorial")
    (hres : t.start = "" → t.end_ = "" →
      ∃ i0, t.items.head? = some i0 ∧ i0.start = t.start ∧ i0.end_ = t.end_) :
    sessionStep t p v pl = some (t, "", "") := by
  unfold sessionStep
  rw [if_pos (by simp [hty])]
  by_cases hb : t.start = "" ∧ t.end_ = ""
  · obtain ⟨i0, hh, h1, h2⟩ := hres hb.1 hb.2
    rw [if_pos (by simp [hb.1, hb.2]), hh]
    dsimp only
    rw [h1, h2]
  · rw [if_neg (by simp only [Bool.and_eq_true, beq_iff_eq]; exact hb)]

theorem sessionStep_id_paper (t : Session) (p v : Bool) (pl : PlenaryInfo)
    (hty : t.type = "paper" ∨ t.type = "best_paper")
    (hres : t.start = "" → t.end_ = "" →
      ∃ i0 iN, t.items.head? = some i0 ∧ t.items.getLast? = some iN ∧
        i0.start = t.start ∧ iN.end_ = t.end_) :
    sessionStep t p v pl = some (t, chairDescription t, "") := by
  unfold sessionStep
  rw [if_neg (by rcases hty with h | h <;> simp [h]),
      if_pos (by rcases hty with h | h <;> simp [h])]
  by_cases hb : t.start = "" ∧ t.end_ = ""
  · obtain ⟨i0, iN, hh, hl, h1, h2⟩ := hres hb.1 hb.2
    rw [if_pos (by simp [hb.1, hb.2]), hh, hl]
    dsimp only
    rw [h1, h2]
  · rw [if_neg (by simp only [Bool.and_eq_true, beq_iff_eq]; exact hb)]

theorem sessionStep_id_plenary (t : Session) (p v : Bool) (pl : PlenaryInfo)
    (hty : t.type = "plenary") (hap : plenaryApply t pl = t) :
    sessionStep t p v pl = some (t, plenaryDescription t p v, t.person) := by
  unfold sessionStep
  rw [if_neg (by simp [hty]), if_neg (by simp [hty]), if_pos (by simp [hty]), hap]

theorem sessionStep_id_other (t : Session) (p v : Bool) (pl : PlenaryInfo)
    (h1 : t.type ≠ "tutorial") (h2 : t.type ≠ "paper") (h3 : t.type ≠ "best_paper")
    (h4 : t.type ≠ "plenary") :
    sessionStep t p v pl = some (t, "", "") := by
  unfold sessionStep
  rw [if_neg (by simp [h1]), if_neg (by simp [h2, h3]), if_neg (by simp [h4])]

/-! ### Stability of the preparation phase across reruns -/

@[simp]
theorem AppItem.to_rows_snd_start (item : Item) (date : String) (event : String)
    (metadata : Metadata) (p v : Bool) :
    (AppItem.to_rows item date event metadata p v).2.start = item.start := rfl

@[simp]
theorem AppItem.to_rows_snd_end (item : Item) (date : String) (event : String)
    (metadata : Metadata) (p v : Bool) :
    (AppItem.to_rows item date event metadata p v).2.end_ = item.end_ := rfl

@[simp]
theorem AppItem.to_rows_snd_id (item : Item) (date : String) (event : String)
    (metadata : Metadata) (p v : Bool) :
    (AppItem.to_rows item date event metadata p v).2.id_ = item.id_ := rfl

@[simp]
theorem AppItem.to_rows_snd_type (item : Item) (date : String) (event : String)
    (metadata : Metadata) (p v : Bool) :
    (AppItem.to_rows item date event metadata p v).2.type = item.type := rfl

theorem itemsLoop_snd (s_start s_end : String) (date : String) (event : String)
    (metadata : Metadata) (p v : Bool) (items : List Item) :
    (itemsLoop s_start s_end date event metadata p v items).2 =
      items.map (fun i =>
        (AppItem.to_rows (inheritTimes s_start s_end i) date event metadata p v).2) := by
  rw [itemsLoop_eq]

/-- Rerunning the per-type preparation phase on the session produced by a
successful run (with its item list replaced by the post-loop items) is the
identity: the resolved times and plenary fields are recomputed to the same
values, and the same description and authors come out. -/
theorem sessionStep_stable (s : Session) (p v : Bool) (pl : PlenaryInfo)
    (date : String) (e : String) (m : Metadata) (s₁ : Session) (d a : String)
    (hst : sessionStep s p v pl = some (s₁, d, a)) :
    sessionStep
        { s₁ with items := (itemsLoop s₁.start s₁.end_ date e m p v s.items).2 } p v pl =
      some ({ s₁ with items := (itemsLoop s₁.start s₁.end_ date e m p v s.items).2 },
        d, a) := by
  unfold sessionStep at hst
  by_cases hty : s.type = "tutorial"
  · rw [if_pos (by simp [hty])] at hst
    by_cases hb : s.start = "" ∧ s.end_ = ""
    · rw [if_pos (by simp [hb.1, hb.2])] at hst
      cases hh : s.items.head? with
      | none => rw [hh] at hst; exact Option.noConfusion hst
      | some i0 =>
        rw [hh] at hst
        dsimp only at hst
        rw [Option.some.injEq, Prod.mk.injEq, Prod.mk.injEq] at hst
        obtain ⟨h1, hd, ha⟩ := hst
        subst hd; subst ha; subst h1
        rw [sessionStep_id_tutorial _ p v pl (by simpa using hty) ?_]
        intro _ _
        refine ⟨(AppItem.to_rows (inheritTimes i0.start i0.end_ i0) date e m p v).2,
          ?_, ?_, ?_⟩
        · simp [itemsLoop_snd, List.head?_map, hh]
        · simp [inheritTimes_start_of_eq i0.start i0.end_ i0 rfl]
        · simp [inheritTimes_end_of_eq i0.start i0.end_ i0 rfl]
    · rw [if_neg (by simp only [Bool.and_eq_true, beq_iff_eq]; exact hb),
        Option.some.injEq, Prod.mk.injEq, Prod.mk.injEq] at hst
      obtain ⟨h1, hd, ha⟩ := hst
      subst hd; subst ha; subst h1
      rw [sessionStep_id_tutorial _ p v pl (by simpa using hty) ?_]
      intro hs he
      exact absurd ⟨hs, he⟩ hb
  · rw [if_neg (by simpa using hty)] at hst
    by_cases hpp : s.type = "paper" ∨ s.type = "best_paper"
    · rw [if_pos (by rcases hpp with h | h <;> simp [h])] at hst
      by_cases hb : s.start = "" ∧ s.end_ = ""
      · rw [if_pos (by simp [hb.1, hb.2])] at hst
        cases hh : s.items.head? with
        | none => rw [hh] at hst; exact Option.noConfusion hst
        | some i0 =>
          cases hl : s.items.getLast? with
          | none => rw [hh, hl] at hst; exact Option.noConfusion hst
          | some iN =>
            rw [hh, hl] at hst
            dsimp only at hst
            rw [Option.some.injEq, Prod.mk.injEq, Prod.mk.injEq] at hst
            obtain ⟨h1, hd, ha⟩ := hst
            subst hd; subst ha; subst h1
            rw [sessionStep_id_paper _ p v pl (by simpa using hpp) ?_]
            · rfl
            intro _ _
            refine ⟨(AppItem.to_rows (inheritTimes i0.start iN.end_ i0) date e m p v).2,
              (AppItem.to_rows (inheritTimes i0.start iN.end_ iN) date e m p v).2,
              ?_, ?_, ?_, ?_⟩
            · simp [itemsLoop_snd, List.head?_map, hh]
            · simp [itemsLoop_snd, List.getLast?_map, hl]
            · simp [inheritTimes_start_of_eq i0.start iN.end_ i0 rfl]
            · simp [inheritTimes_end_of_eq i0.start iN.end_ iN rfl]
      · rw [if_neg (by simp only [Bool.and_eq_true, beq_iff_eq]; exact hb),
          Option.some.injEq, Prod.mk.injEq, Prod.mk.injEq] at hst
        obtain ⟨h1, hd, ha⟩ := hst
        subst hd; subst ha; subst h1
        rw [sessionStep_id_paper _ p v pl (by simpa using hpp) ?_]
        · rfl
        intro hs he
        exact absurd ⟨hs, he⟩ hb
    · rw [if_neg (by simp only [Bool.or_eq_true, beq_iff_eq]; exact hpp)] at hst
      by_cases hpl : s.type = "plenary"
      · rw [if_pos (by simp [hpl]), Option.some.injEq, Prod.mk.injEq,
          Prod.mk.injEq] at hst
        obtain ⟨h1, hd, ha⟩ := hst
        subst hd; subst ha; subst h1
        rw [sessionStep_id_plenary _ p v pl
          (by simpa using hpl) (plenaryApply_stable s pl _)]
        rfl
      · rw [if_neg (by simpa using hpl), Option.some.injEq, Prod.mk.injEq,
          Prod.mk.injEq] at hst
        obtain ⟨h1, hd, ha⟩ := hst
        subst hd; subst ha; subst h1
        rw [sessionStep_id_other _ p v pl (by simpa using hty)
          (by simpa using fun h => hpp (Or.inl h))
          (by simpa using fun h => hpp (Or.inr h)) (by simpa using hpl)]

theorem inheritTimes_stable2 (st en : String) (date : String) (e : String) (m : Metadata)
    (p v : Bool) (i : Item) :
    inheritTimes st en ((AppItem.to_rows (inheritTimes st en i) date e m p v).2) =
      (AppItem.to_rows (inheritTimes st en i) date e m p v).2 := by
  by_cases hc : (i.type == "tutorial" || i.type == "poster") = true
  · apply inheritTimes_stable
    · simp [inheritTimes, hc]
    · simp [inheritTimes, hc]
  · have hi : inheritTimes st en i = i := by unfold inheritTimes; rw [if_neg hc]
    rw [hi]
    unfold inheritTimes
    rw [if_neg (by simp only [AppItem.to_rows_snd_type]; exact hc)]

theorem itemsLoop_stable (st en : String) (date : String) (e : String) (m : Metadata)
    (p v : Bool) (items : List Item) :
    itemsLoop st en date e m p v ((itemsLoop st en date e m p v items).2) =
      itemsLoop st en date e m p v items := by
  induction items with
  | nil => rfl
  | cons i rest ih =>
    simp only [itemsLoop, inheritTimes_stable2, AppItem.to_rows_idem, ih]

/-- The identifiers of the items are not changed by the item loop. -/
theorem itemsLoop_ids (st en : String) (date : String) (e : String) (m : Metadata)
    (p v : Bool) (items : List Item) :
    ((itemsLoop st en date e m p v items).2).map (fun i => i.id_) =
      items.map (fun i => i.id_) := by
  rw [itemsLoop_snd, List.map_map]
  simp [Function.comp_def, inheritTimes_id_]

/-- Rerunning `AppSession.to_rows` on the session object a successful run
left behind reproduces exactly the same rows and leaves the session
unchanged: the in-place mutation performed by the source reaches a fixed
point after one call. -/
theorem session_to_rows_fix (s : Session) (date : String) (e : String) (m : Metadata)
    (p v : Bool) (pl : PlenaryInfo) (rows : List Row) (s' : Session)
    (h : AppSession.to_rows s date e m p v pl = some (rows, s')) :
    AppSession.to_rows s' date e m p v pl = some (rows, s') := by
  unfold AppSession.to_rows at h ⊢
  cases htr : get_tracks_for_session s e with
  | none => rw [htr] at h; exact Option.noConfusion h
  | some tracks =>
    rw [htr] at h
    cases hst : sessionStep s p v pl with
    | none => rw [hst] at h; exact Option.noConfusion h
    | some r =>
      obtain ⟨s₁, d, a⟩ := r
      rw [hst] at h
      dsimp only at h
      rw [Option.some.injEq, Prod.mk.injEq] at h
      obtain ⟨hrows, hs'⟩ := h
      obtain ⟨hty, hitems, -, -, -⟩ := sessionStep_pres s p v pl s₁ d a hst
      rw [hitems] at hs' hrows
      subst hs'
      have htr2 : get_tracks_for_session
          { s₁ with items := (itemsLoop s₁.start s₁.end_ date e m p v s.items).2 } e =
          some tracks := by
        rw [get_tracks_congr s
          { s₁ with items := (itemsLoop s₁.start s₁.end_ date e m p v s.items).2 } e
          (by exact hty) (by dsimp only; rw [itemsLoop_ids])]
        exact htr
      rw [htr2, sessionStep_stable s p v pl date e m s₁ d a hst]
      dsimp only
      rw [itemsLoop_stable, hrows]

/-- Time resolution only fires when both times are absent, so a session
that comes out of the preparation phase with both times empty must have
gone in with both times empty. -/
theorem sessionStep_times_empty (s : Session) (p v : Bool) (pl : PlenaryInfo)
    (s₁ : Session) (d a : String) (hst : sessionStep s p v pl = some (s₁, d, a))
    (h0 : s₁.start = "") (h1 : s₁.end_ = "") : s.start = "" ∧ s.end_ = "" := by
  unfold sessionStep at hst
  repeat' split at hst
  all_goals try exact (Option.noConfusion hst)
  all_goals (
    rw [Option.some.injEq, Prod.mk.injEq, Prod.mk.injEq] at hst
    obtain ⟨hh, -, -⟩ := hst
    subst hh
    simp_all)

theorem AppSession.to_rows_times_empty (s : Session) (date : String) (e : String)
    (m : Metadata) (p v : Bool) (pl : PlenaryInfo) (rows : List Row) (s' : Session)
    (h : AppSession.to_rows s date e m p v pl = some (rows, s'))
    (h0 : s'.start = "") (h1 : s'.end_ = "") : s.start = "" ∧ s.end_ = "" := by
  unfold AppSession.to_rows at h
  cases htr : get_tracks_for_session s e with
  | none => rw [htr] at h; exact Option.noConfusion h
  | some tracks =>
    rw [htr] at h
    cases hst : sessionStep s p v pl with
    | none => rw [hst] at h; exact Option.noConfusion h
    | some r =>
      obtain ⟨s₁, d, a⟩ := r
      rw [hst] at h
      dsimp only at h
      rw [Option.some.injEq, Prod.mk.injEq] at h
      obtain ⟨-, hs'⟩ := h
      rw [← hs'] at h0 h1
      dsimp only at h0 h1
      exact sessionStep_times_empty s p v pl s₁ d a hst h0 h1

theorem groupLoop_fix (g_start g_end : String) (date : String) (e : String) (m : Metadata)
    (p v : Bool) (pl : PlenaryInfo) (sessions : List Session) (rows : List Row)
    (sessions' : List Session)
    (h : groupLoop g_start g_end date e m p v pl sessions = some (rows, sessions')) :
    groupLoop g_start g_end date e m p v pl sessions' = some (rows, sessions') := by
  induction sessions generalizing rows sessions' with
  | nil =>
    unfold groupLoop at h
    rw [Option.some.injEq, Prod.mk.injEq] at h
    obtain ⟨hr, hs⟩ := h
    subst hr; subst hs
    rfl
  | cons s rest ih =>
    unfold groupLoop at h
    dsimp only at h
    cases hto : AppSession.to_rows
        (if s.start == "" && s.end_ == "" then
          { s with start := g_start, end_ := g_end } else s) date e m p v pl with
    | none => rw [hto] at h; exact Option.noConfusion h
    | some pr =>
      obtain ⟨r1, s1⟩ := pr
      rw [hto] at h
      dsimp only at h
      cases hrest : groupLoop g_start g_end date e m p v pl rest with
      | none => rw [hrest] at h; exact Option.noConfusion h
      | some qr =>
        obtain ⟨r2, rest2⟩ := qr
        rw [hrest] at h
        dsimp only at h
        rw [Option.some.injEq, Prod.mk.injEq] at h
        obtain ⟨hr, hs⟩ := h
        subst hr; subst hs
        have hfix := session_to_rows_fix _ date e m p v pl r1 s1 hto
        unfold groupLoop
        by_cases hb1 : s1.start = "" ∧ s1.end_ = ""
        · have hsrc := AppSession.to_rows_times_empty _ date e m p v pl r1 s1 hto
            hb1.1 hb1.2
          by_cases hb : s.start = "" ∧ s.end_ = ""
          · rw [if_pos (by simp [hb.1, hb.2])] at hsrc
            dsimp only at hsrc
            have heq : ({ s1 with start := g_start, end_ := g_end } : Session) = s1 := by
              ext <;> simp [hsrc.1, hsrc.2, hb1.1, hb1.2]
            rw [if_pos (by simp [hb1.1, hb1.2]), heq]
            dsimp only
            rw [hfix]
            dsimp only
            rw [ih r2 rest2 hrest]
          · rw [if_neg (by simp only [Bool.and_eq_true, beq_iff_eq]; exact hb)] at hsrc
            exact absurd hsrc hb
        · rw [if_neg (by simp only [Bool.and_eq_true, beq_iff_eq]; exact hb1)]
          dsimp only
          rw [hfix]
          dsimp only
          rw [ih r2 rest2 hrest]

theorem group_to_rows_fix (g : SessionGroup) (date : String) (e : String)
    (m : Metadata) (p v : Bool) (pl : PlenaryInfo) (rows : List Row) (g' : SessionGroup)
    (h : AppSessionGroup.to_rows g date e m p v pl = some (rows, g')) :
    AppSessionGroup.to_rows g' date e m p v pl = some (rows, g') := by
  unfold AppSessionGroup.to_rows at h ⊢
  cases hgl : groupLoop g.start g.end_ date e m p v pl g.sessions with
  | none => rw [hgl] at h; exact Option.noConfusion h
  | some pr =>
    obtain ⟨r, ss⟩ := pr
    rw [hgl] at h
    dsimp only at h
    rw [Option.some.injEq, Prod.mk.injEq] at h
    obtain ⟨hr, hg⟩ := h
    subst hr; subst hg
    dsimp only
    rw [groupLoop_fix g.start g.end_ date e m p v pl g.sessions r ss hgl]

theorem contentsLoop_fix (date : String) (e : String) (m : Metadata) (p v : Bool)
    (pl : PlenaryInfo) (contents : List Content) (rows : List Row)
    (contents' : List Content)
    (h : contentsLoop date e m p v pl contents = some (rows, contents')) :
    contentsLoop date e m p v pl contents' = some (rows, contents') := by
  induction contents generalizing rows contents' with
  | nil =>
    unfold contentsLoop at h
    rw [Option.some.injEq, Prod.mk.injEq] at h
    obtain ⟨hr, hs⟩ := h
    subst hr; subst hs
    rfl
  | cons c rest ih =>
    cases c with
    | group g =>
      unfold contentsLoop at h
      cases hto : AppSessionGroup.to_rows g date e m p v pl with
      | none => rw [hto] at h; exact Option.noConfusion h
      | some pr =>
        obtain ⟨r1, g1⟩ := pr
        rw [hto] at h
        dsimp only at h
        cases hrest : contentsLoop date e m p v pl rest with
        | none => rw [hrest] at h; exact Option.noConfusion h
        | some qr =>
          obtain ⟨r2, rest2⟩ := qr
          rw [hrest] at h
          dsimp only at h
          rw [Option.some.injEq, Prod.mk.injEq] at h
          obtain ⟨hr, hs⟩ := h
          subst hr; subst hs
          unfold contentsLoop
          rw [group_to_rows_fix g date e m p v pl r1 g1 hto]
          dsimp only
          rw [ih r2 rest2 hrest]
    | session s =>
      unfold contentsLoop at h
      cases hto : AppSession.to_rows s date e m p v pl with
      | none => rw [hto] at h; exact Option.noConfusion h
      | some pr =>
        obtain ⟨r1, s1⟩ := pr
        rw [hto] at h
        dsimp only at h
        cases hrest : contentsLoop date e m p v pl rest with
        | none => rw [hrest] at h; exact Option.noConfusion h
        | some qr =>
          obtain ⟨r2, rest2⟩ := qr
          rw [hrest] at h
          dsimp only at h
          rw [Option.some.injEq, Prod.mk.injEq] at h
          obtain ⟨hr, hs⟩ := h
          subst hr; subst hs
          unfold contentsLoop
          rw [session_to_rows_fix s date e m p v pl r1 s1 hto]
          dsimp only
          rw [ih r2 rest2 hrest]

theorem daysLoop_fix (e : String) (m : Metadata) (p v : Bool) (pl : PlenaryInfo)
    (days : List Day) (rows : List Row) (days' : List Day)
    (h : daysLoop e m p v pl days = some (rows, days')) :
    daysLoop e m p v pl days' = some (rows, days') := by
  induction days generalizing rows days' with
  | nil =>
    unfold daysLoop at h
    rw [Option.some.injEq, Prod.mk.injEq] at h
    obtain ⟨hr, hs⟩ := h
    subst hr; subst hs
    rfl
  | cons day rest ih =>
    unfold daysLoop at h
    cases hcl : contentsLoop day.date e m p v pl day.contents with
    | none => rw [hcl] at h; exact Option.noConfusion h
    | some pr =>
      obtain ⟨r1, cs1⟩ := pr
      rw [hcl] at h
      dsimp only at h
      cases hrest : daysLoop e m p v pl rest with
      | none => rw [hrest] at h; exact Option.noConfusion h
      | some qr =>
        obtain ⟨r2, rest2⟩ := qr
        rw [hrest] at h
        dsimp only at h
        rw [Option.some.injEq, Prod.mk.injEq] at h
        obtain ⟨hr, hs⟩ := h
        subst hr; subst hs
        unfold daysLoop
        dsimp only
        rw [contentsLoop_fix day.date e m p v pl day.contents r1 cs1 hcl]
        dsimp only
        rw [ih r2 rest2 hrest]

/-- Rerunning the whole flattening on the tree a successful run left
behind reproduces exactly the same row sequence and leaves the tree
unchanged. -/
theorem agenda_to_rows_fix (a : Agenda) (m : Metadata) (p v : Bool)
    (pl : PlenaryInfo) (rows : List Row) (a' : Agenda)
    (h : AppAgenda.to_rows a m p v pl = some (rows, a')) :
    AppAgenda.to_rows a' m p v pl = some (rows, a') := by
  unfold AppAgenda.to_rows at h ⊢
  cases hdl : daysLoop a.event m p v pl a.days with
  | none => rw [hdl] at h; exact Option.noConfusion h
  | some pr =>
    obtain ⟨r, ds⟩ := pr
    rw [hdl] at h
    dsimp only at h
    rw [Option.some.injEq, Prod.mk.injEq] at h
    obtain ⟨hr, ha⟩ := h
    subst hr; subst ha
    dsimp only
    rw [daysLoop_fix a.event m p v pl a.days r ds hdl]

/-! ### Claim C9 -/

/-- C9: row assembly for a session of type `tutorial`, `paper` or
`best_paper` whose start and end times are both absent is only defined
when the item list is non-empty: with zero items, resolving the inherited
start/end indexes `self.items[0]` and fails out of range (embedded as
`none`) instead of falling back to an empty time. -/
theorem C9_empty_items_fail (s : Session) (date e : String) (m : Metadata)
    (p v : Bool) (pl : PlenaryInfo)
    (hty : s.type = "tutorial" ∨ s.type = "paper" ∨ s.type = "best_paper")
    (hs : s.start = "") (he : s.end_ = "") (hi : s.items = []) :
    AppSession.to_rows s date e m p v pl = none := by
  have hstep : sessionStep s p v pl = none := by
    unfold sessionStep
    rcases hty with h | h | h
    · rw [if_pos (by simp [h]), if_pos (by simp [hs, he]), hi]
      rfl
    · rw [if_neg (by simp [h]), if_pos (by simp [h]), if_pos (by simp [hs, he]), hi]
      rfl
    · rw [if_neg (by simp [h]), if_pos (by simp [h]), if_pos (by simp [hs, he]), hi]
      rfl
  unfold AppSession.to_rows
  cases htr : get_tracks_for_session s e with
  | none => rfl
  | some tr =>
    dsimp only
    rw [hstep]

/-- Witness for C9 at a concrete input: an item-less best-paper session
with absent times. -/
theorem C9_empty_items_fail_witness :
    AppSession.to_rows
      ⟨"best_paper", "Best Paper Session", "Hall A", "", "", "", [],
        "", "", "", "", "", ""⟩
      "06/04/2019" "main" (fun _ _ => ⟨"T", ["A"], "abs", "", ""⟩) false false [] =
      none :=
  C9_empty_items_fail _ "06/04/2019" "main" _ false false []
    (Or.inr (Or.inr rfl)) rfl rfl rfl

/-! ### Claim C10 -/

/-- C10: attendee classification only succeeds when at least one collected
speaker name is absent from the roster.  When every collected speaker name
appears in the roster (which includes the case of no collected names at
all), `missing_speaker_dicts` is empty, `DataFrame([])` has no columns,
and the subsequent column selection raises (embedded as `none`) instead of
returning the two partitions. -/
theorem C10_all_matched_fail (agenda_rows : List Row)
    (df_attendees : List AttendeeRecord) (speakers : List String)
    (hc : collectSpeakers agenda_rows [] = some speakers)
    (hall : ∀ n ∈ speakers, n ∈ df_attendees.map (fun a => a.name)) :
    classify_attendees agenda_rows df_attendees = none := by
  unfold classify_attendees
  rw [hc]
  dsimp only
  have hm : speakers.filter (fun n =>
      !(((df_attendees.filter (fun a => speakers.contains a.name)).map
        (fun a => a.name)).contains n)) = [] := by
    rw [List.filter_eq_nil_iff]
    intro n hn
    have hmem : n ∈ (df_attendees.filter
        (fun a => speakers.contains a.name)).map (fun a => a.name) := by
      have := hall n hn
      rw [List.mem_map] at this ⊢
      obtain ⟨a, ha, hna⟩ := this
      exact ⟨a, by rw [List.mem_filter]; exact ⟨ha, by simp [hna, hn]⟩, hna⟩
    simpa [and_assoc] using hmem
  rw [hm]

/-- Witness for C10 at a concrete input: the only collected speaker name
is present in the roster, so classification fails. -/
theorem C10_all_matched_fail_witness :
    classify_attendees [["d", "s", "e", "t", "ti", "l", "de", "Carol", "", "Session"]]
      [⟨"Carol", "carol@x.org", "V"⟩] = none :=
  C10_all_matched_fail _ _ ["Carol"] rfl (by decide)

/-! ### Claim C7 -/

/-- C7: for a `paper` or `best_paper` session whose start and end times
are both absent and whose items list is non-empty, the emitted session row
carries the first child item's start time and the last child item's end
time. -/
theorem C7_time_inheritance (s : Session) (date e : String) (m : Metadata)
    (p v : Bool) (pl : PlenaryInfo) (rows : List Row) (s' : Session)
    (hty : s.type = "paper" ∨ s.type = "best_paper")
    (hs : s.start = "") (he : s.end_ = "")
    (i0 iN : Item) (hh : s.items.head? = some i0) (hl : s.items.getLast? = some iN)
    (h : AppSession.to_rows s date e m p v pl = some (rows, s')) :
    ∃ tracks rest, rows =
      [date, i0.start, iN.end_, tracks, s.title, s.location,
        chairDescription s, "", "", "Session"] :: rest := by
  have hstep : sessionStep s p v pl =
      some ({ s with start := i0.start, end_ := iN.end_ }, chairDescription s, "") := by
    unfold sessionStep
    rw [if_neg (by rcases hty with ht | ht <;> simp [ht]),
      if_pos (by rcases hty with ht | ht <;> simp [ht]),
      if_pos (by simp [hs, he]), hh, hl]
  unfold AppSession.to_rows at h
  cases htr : get_tracks_for_session s e with
  | none => rw [htr] at h; exact Option.noConfusion h
  | some tracks =>
    rw [htr, hstep] at h
    dsimp only at h
    rw [if_pos (by rcases hty with ht | ht <;> simp [ht])] at h
    rw [Option.some.injEq, Prod.mk.injEq] at h
    exact ⟨tracks, _, h.1.symm⟩

/-- Witness for C7 at the spec's concrete example: a best-paper session
with item start times 9:00/9:20/9:40 and end times 9:20/9:40/10:00
resolves to a session row with start 9:00 and end 10:00. -/
theorem C7_time_inheritance_witness :
    ∃ tracks rest,
      ([["06/03/2019", "9:00", "10:00", "Research", "Best Paper Session", "Hall A",
          "", "", "", "Session"],
        ["06/03/2019", "9:00", "9:20", "Research", "Paper Title", "",
          "<p>An abstract</p>", "Ann Author", "", "Sub"],
        ["06/03/2019", "9:20", "9:40", "Research", "Paper Title", "",
          "<p>An abstract</p>", "Ann Author", "", "Sub"],
        ["06/03/2019", "9:40", "10:00", "Research", "Paper Title", "",
          "<p>An abstract</p>", "Ann Author", "", "Sub"]] : List Row) =
      ["06/03/2019", "9:00", "10:00", tracks, "Best Paper Session", "Hall A",
        chairDescription ⟨"best_paper", "Best Paper Session", "Hall A", "", "", "",
          [⟨"p1", "paper", "9:00", "9:20", none, "", "", "", ""⟩,
           ⟨"p2", "paper", "9:20", "9:40", none, "", "", "", ""⟩,
           ⟨"p3", "paper", "9:40", "10:00", none, "", "", "", ""⟩],
          "", "", "", "", "", ""⟩, "", "", "Session"] :: rest :=
  C7_time_inheritance
    ⟨"best_paper", "Best Paper Session", "Hall A", "", "", "",
      [⟨"p1", "paper", "9:00", "9:20", none, "", "", "", ""⟩,
       ⟨"p2", "paper", "9:20", "9:40", none, "", "", "", ""⟩,
       ⟨"p3", "paper", "9:40", "10:00", none, "", "", "", ""⟩],
      "", "", "", "", "", ""⟩
    "06/03/2019" "main" (fun _ _ => ⟨"Paper Title", ["Ann Author"], "An abstract", "", ""⟩)
    false false [] _ _ (Or.inr rfl) rfl rfl _ _ rfl rfl rfl

/-! ### Claim C2 -/

theorem mem_foldl_addToSet (l : List String) (acc : List String) (x : String) :
    x ∈ l.foldl addToSet acc ↔ x ∈ acc ∨ x ∈ l := by
  induction l generalizing acc with
  | nil => simp
  | cons a t ih =>
    rw [List.foldl_cons, ih]
    unfold addToSet
    by_cases hc : acc.contains a
    · rw [if_pos hc]
      have ha : a ∈ acc := by simpa using hc
      simp only [List.mem_cons]
      constructor
      · rintro (h | h)
        · exact Or.inl h
        · exact Or.inr (Or.inr h)
      · rintro (h | h | h)
        · exact Or.inl h
        · exact Or.inl (h ▸ ha)
        · exact Or.inr h
    · rw [if_neg hc]
      simp only [List.mem_append, List.mem_singleton, List.mem_cons]
      tauto

theorem mem_dedupFirst (l : List String) (x : String) :
    x ∈ dedupFirst l ↔ x ∈ l := by
  unfold dedupFirst
  rw [mem_foldl_addToSet]
  simp

theorem lookupAll_eq_none_iff (ts : List String) :
    lookupAll ts = none ↔
      ∃ t ∈ ts, SESSION_TRACK_DISPLAY_DICT.lookup t = none := by
  induction ts with
  | nil => simp [lookupAll]
  | cons t rest ih =>
    unfold lookupAll
    cases h1 : SESSION_TRACK_DISPLAY_DICT.lookup t with
    | none =>
      dsimp only
      constructor
      · intro _
        exact ⟨t, List.mem_cons_self t rest, h1⟩
      · intro _
        rfl
    | some d =>
      cases h2 : lookupAll rest with
      | none =>
        dsimp only
        constructor
        · intro _
          obtain ⟨u, hu, hl⟩ := ih.mp h2
          exact ⟨u, List.mem_cons_of_mem t hu, hl⟩
        · intro _
          rfl
      | some ds =>
        dsimp only
        constructor
        · intro hcon
          exact Option.noConfusion hcon
        · rintro ⟨u, hu, hl⟩
          rcases List.mem_cons.mp hu with rfl | hu2
          · rw [h1] at hl
            exact Option.noConfusion hl
          · rw [ih.mpr ⟨u, hu2, hl⟩] at h2
            exact Option.noConfusion h2

/-- C2 counterexample: a main-event paper session with a child item whose
hyphen-delimited identifier suffix (`unknown`) is not in
`SESSION_TRACK_DISPLAY_DICT`.  Session-level track classification raises
an uncaught `KeyError` (embedded as `none`), and the whole row assembly
for the session aborts with it, contrary to the claimed per-item
recovery. -/
theorem C2_counterexample :
    get_tracks_for_session
      ⟨"paper", "Session 2B", "Hall B", "", "9:00", "10:00",
        [⟨"17-unknown", "paper", "9:00", "9:20", none, "", "", "", ""⟩],
        "", "", "", "", "", ""⟩ "main" = none ∧
    AppSession.to_rows
      ⟨"paper", "Session 2B", "Hall B", "", "9:00", "10:00",
        [⟨"17-unknown", "paper", "9:00", "9:20", none, "", "", "", ""⟩],
        "", "", "", "", "", ""⟩ "06/03/2019" "main"
      (fun _ _ => ⟨"T", ["A"], "abs", "", ""⟩) false false [] = none :=
  ⟨rfl, rfl⟩

/-- C2 (amended): for a main-event `paper`, `poster` or `best_paper`
session, session-level track classification aborts (raises `KeyError`,
embedded as `none`) exactly when some child item has a hyphen-delimited
identifier suffix missing from the lookup table; in particular it
recovers only from items whose identifier has no hyphen at all (they are
skipped and the base label remains), not from unknown suffixes. -/
theorem C2_amended (s : Session)
    (hty : s.type = "paper" ∨ s.type = "poster" ∨ s.type = "best_paper") :
    get_tracks_for_session s "main" = none ↔
      ∃ i ∈ s.items, pyContains i.id_ '-' = true ∧
        SESSION_TRACK_DISPLAY_DICT.lookup ((pySplit i.id_ "-").getD 1 "") = none := by
  unfold get_tracks_for_session get_tracks_for_session_ord
  rw [if_pos (by simp), if_pos (by rcases hty with h | h | h <;> simp [h])]
  dsimp only
  by_cases hlen : (dedupFirst ((s.items.filter (fun item => pyContains item.id_ '-')).map
      (fun item => (pySplit item.id_ "-").getD 1 ""))).length > 0
  · rw [if_pos hlen]
    cases hla : lookupAll (dedupFirst ((s.items.filter
        (fun item => pyContains item.id_ '-')).map
        (fun item => (pySplit item.id_ "-").getD 1 ""))) with
    | none =>
      dsimp only
      rw [lookupAll_eq_none_iff] at hla
      obtain ⟨t, ht, hlt⟩ := hla
      rw [mem_dedupFirst, List.mem_map] at ht
      obtain ⟨i, hif, hit⟩ := ht
      rw [List.mem_filter] at hif
      constructor
      · intro _
        exact ⟨i, hif.1, hif.2, hit ▸ hlt⟩
      · intro _
        rfl
    | some ds =>
      dsimp only
      constructor
      · intro hcon
        exact Option.noConfusion hcon
      · rintro ⟨i, hi, hc, hl⟩
        have ht : ((pySplit i.id_ "-").getD 1 "") ∈ dedupFirst
            ((s.items.filter (fun item => pyContains item.id_ '-')).map
              (fun item => (pySplit item.id_ "-").getD 1 "")) := by
          rw [mem_dedupFirst, List.mem_map]
          exact ⟨i, List.mem_filter.mpr ⟨hi, hc⟩, rfl⟩
        rw [(lookupAll_eq_none_iff _).mpr ⟨_, ht, hl⟩] at hla
        exact Option.noConfusion hla
  · rw [if_neg hlen]
    constructor
    · intro hcon
      exact Option.noConfusion hcon
    · rintro ⟨i, hi, hc, -⟩
      have ht : ((pySplit i.id_ "-").getD 1 "") ∈ dedupFirst
          ((s.items.filter (fun item => pyContains item.id_ '-')).map
            (fun item => (pySplit item.id_ "-").getD 1 "")) := by
        rw [mem_dedupFirst, List.mem_map]
        exact ⟨i, List.mem_filter.mpr ⟨hi, hc⟩, rfl⟩
      exact absurd (List.length_pos.mpr (List.ne_nil_of_mem ht)) hlen

/-- Witness for C2 (amended) at a concrete input: a poster session with a
known suffix and a hyphen-less identifier classifies without failing. -/
theorem C2_amended_witness :
    get_tracks_for_session
        ⟨"poster", "Poster Session", "Foyer", "", "13:00", "14:00",
          [⟨"42-demos", "poster", "", "", none, "", "", "", ""⟩,
           ⟨"43", "poster", "", "", none, "", "", "", ""⟩],
          "", "", "", "", "", ""⟩ "main" = none ↔
      ∃ i ∈ ([⟨"42-demos", "poster", "", "", none, "", "", "", ""⟩,
           ⟨"43", "poster", "", "", none, "", "", "", ""⟩] : List Item),
        pyContains i.id_ '-' = true ∧
        SESSION_TRACK_DISPLAY_DICT.lookup ((pySplit i.id_ "-").getD 1 "") = none :=
  C2_amended _ (Or.inr (Or.inl rfl))

/-! ### Claim C3 -/

/-- A main-event paper session whose items carry the suffixes `srw` and
`tacl`; used to exhibit the enumeration-order dependence of the tracks
string. -/
def C3session : Session :=
  ⟨"paper", "Session 3A", "Hall C", "", "9:00", "10:00",
    [⟨"11-srw", "paper", "9:00", "9:30", none, "", "", "", ""⟩,
     ⟨"12-tacl", "paper", "9:30", "10:00", none, "", "", "", ""⟩],
    "", "", "", "", "", ""⟩

/-- C3: the suffix display names are joined in Python set iteration order,
which is not deterministic across runs (hash randomisation).  For the same
session, the two-element suffix set of `srw` and `tacl` admits the
enumeration orders `[srw, tacl]` and `[tacl, srw]` — both permutations of
the same set — and they produce different tracks strings, so the string is
not a function of the input alone, contradicting the claimed determinism
(the prefix `Research`, the table lookups, the deduplication and the
`; ` join all behave as claimed). -/
theorem C3_order_dependence :
    dedupFirst ((C3session.items.filter (fun item => pyContains item.id_ '-')).map
        (fun item => (pySplit item.id_ "-").getD 1 "")) = ["srw", "tacl"] ∧
    get_tracks_for_session_ord (fun l => l) C3session "main" =
      some "Research; SRW; TACL" ∧
    get_tracks_for_session_ord (fun l => l.reverse) C3session "main" =
      some "Research; TACL; SRW" ∧
    List.Perm (["srw", "tacl"].reverse) ["srw", "tacl"] :=
  ⟨rfl, rfl, rfl, by decide⟩

/-! ### Claim C4 -/

theorem get_tracks_plenary (s : Session) (e : String) (hty : s.type = "plenary") :
    get_tracks_for_session s e = some (if e == "main" then "" else e) := by
  unfold get_tracks_for_session get_tracks_for_session_ord
  by_cases he : (e == "main") = true
  · rw [if_pos he, if_neg (by simp [hty]), if_pos he]
  · rw [if_neg he, if_neg he]

/-- C4 counterexample: (a) a plenary session matched by no prefix of the
plenary-info table gets description `<p></p>` — the HTML wrapper around
the reset empty abstract — not the empty string the claim states (the
authors field is empty as claimed); (b) with `pdf_links` on and a matched
entry carrying a PDF URL, the description is not the bare
`<p>abstract</p>` either: a link marker is appended. -/
theorem C4_counterexample :
    (AppSession.to_rows
        ⟨"plenary", "Welcome", "Hall", "", "8:30", "9:00", [], "", "", "", "", "", ""⟩
        "06/03/2019" "ws9" (fun _ _ => ⟨"T", ["A"], "abs", "", ""⟩) false false []).map
      (fun pr => ((pr.1.headD []).getD 6 "", (pr.1.headD []).getD 7 "")) =
      some ("<p></p>", "") ∧
    (AppSession.to_rows
        ⟨"plenary", "Keynote: NLP", "Hall", "", "9:00", "10:00", [],
          "", "", "", "", "", ""⟩
        "06/03/2019" "ws9" (fun _ _ => ⟨"T", ["A"], "abs", "", ""⟩) true false
        [("Keynote", ⟨"Big abstract", "Jane Speaker", "Univ", "", "http://pdf.x", ""⟩)]).map
      (fun pr => (pr.1.headD []).getD 6 "") =
      some "<p>Big abstract</p> [<a href=\"http://pdf.x\">PDF</>]" :=
  ⟨rfl, rfl⟩

/-- C4 (amended): for a plenary session with the link flags off, the first
plenary-info entry whose key is a prefix of the session title (first match
wins, in table order) supplies the row's description
`<p>` ++ abstract ++ `</p>` and its authors field (the speaker name); when
no prefix matches, the description is `<p></p>` — the wrapper around the
reset empty abstract — and the authors field is empty. -/
theorem C4_amended (s : Session) (date e : String) (m : Metadata) (pl : PlenaryInfo)
    (rows : List Row) (s' : Session) (hty : s.type = "plenary")
    (h : AppSession.to_rows s date e m false false pl = some (rows, s')) :
    (pl.find? (fun entry => pyStartsWith s.title entry.1) = none →
      (rows.headD []).getD 6 "" = "<p></p>" ∧ (rows.headD []).getD 7 "" = "") ∧
    (∀ entry, pl.find? (fun entry => pyStartsWith s.title entry.1) = some entry →
      (rows.headD []).getD 6 "" = "<p>" ++ entry.2.abstract ++ "</p>" ∧
      (rows.headD []).getD 7 "" = entry.2.person) := by
  unfold AppSession.to_rows at h
  rw [get_tracks_plenary s e hty] at h
  have hstep : sessionStep s false false pl =
      some (plenaryApply s pl, plenaryDescription (plenaryApply s pl) false false,
        (plenaryApply s pl).person) := by
    unfold sessionStep
    rw [if_neg (by simp [hty]), if_neg (by simp [hty]), if_pos (by simp [hty])]
  rw [hstep] at h
  dsimp only at h
  rw [if_pos (by simp [hty])] at h
  rw [Option.some.injEq, Prod.mk.injEq] at h
  obtain ⟨hrows, -⟩ := h
  rw [← hrows]
  constructor
  · intro hf
    obtain ⟨a1, a2, -, -, -⟩ := plenaryApply_fields_none s pl hf
    constructor
    · simp [plenaryDescription, a1, List.getD]
    · simp [a2, List.getD]
  · intro entry hf
    have hfs := plenaryApply_fields_some s pl entry hf
    constructor
    · simp [plenaryDescription, hfs.1, List.getD]
    · simp [hfs.2.1, List.getD]

/-- Witness for C4 (amended) at a concrete input: a matched plenary
session with the link flags off. -/
theorem C4_amended_witness :
    (([("Invited Talk", ⟨"Inspiring abstract", "Pat Speaker", "Univ X", "", "", ""⟩)] :
        PlenaryInfo).find? (fun entry => pyStartsWith "Invited Talk: ML" entry.1) =
        none →
      (([["06/05/2019", "11:00", "12:00", "w2", "Invited Talk: ML", "Hall D",
          "<p>Inspiring abstract</p>", "Pat Speaker", "", "Session"]] :
          List Row).headD []).getD 6 "" = "<p></p>" ∧
      (([["06/05/2019", "11:00", "12:00", "w2", "Invited Talk: ML", "Hall D",
          "<p>Inspiring abstract</p>", "Pat Speaker", "", "Session"]] :
          List Row).headD []).getD 7 "" = "") ∧
    (∀ entry,
      ([("Invited Talk", ⟨"Inspiring abstract", "Pat Speaker", "Univ X", "", "", ""⟩)] :
        PlenaryInfo).find? (fun entry => pyStartsWith "Invited Talk: ML" entry.1) =
        some entry →
      (([["06/05/2019", "11:00", "12:00", "w2", "Invited Talk: ML", "Hall D",
          "<p>Inspiring abstract</p>", "Pat Speaker", "", "Session"]] :
          List Row).headD []).getD 6 "" = "<p>" ++ entry.2.abstract ++ "</p>" ∧
      (([["06/05/2019", "11:00", "12:00", "w2", "Invited Talk: ML", "Hall D",
          "<p>Inspiring abstract</p>", "Pat Speaker", "", "Session"]] :
          List Row).headD []).getD 7 "" = entry.2.person) :=
  C4_amended
    ⟨"plenary", "Invited Talk: ML", "Hall D", "", "11:00", "12:00", [],
      "", "", "", "", "", ""⟩
    "06/05/2019" "w2" (fun _ _ => ⟨"T", ["A"], "abs", "", ""⟩)
    [("Invited Talk", ⟨"Inspiring abstract", "Pat Speaker", "Univ X", "", "", ""⟩)]
    _ _ rfl rfl

/-! ### Claim C1 -/

theorem itemsLoop_fst (s_start s_end : String) (date e : String) (m : Metadata)
    (p v : Bool) (items : List Item) :
    (itemsLoop s_start s_end date e m p v items).1 =
      items.map (fun i =>
        (AppItem.to_rows (inheritTimes s_start s_end i) date e m p v).1) := by
  rw [itemsLoop_eq]

/-- C1 counterexample: a session of type `tutorial` containing one child
item of type `paper` emits exactly one row, but that row is tagged `Sub`,
not `Session`: the kind tag of an item row is decided by the item's own
type, not by the containing session's type. -/
theorem C1_counterexample :
    (AppSession.to_rows
        ⟨"tutorial", "T1: Tutorial One", "Room 1", "", "9:00", "12:30",
          [⟨"idX", "paper", "9:00", "12:30", none, "", "", "", ""⟩],
          "", "", "", "", "", ""⟩
        "06/02/2019" "main" (fun _ _ => ⟨"T", ["A"], "abs", "", ""⟩)
        false false []).map
      (fun pr => pr.1.map (fun r => r.getD 9 "")) = some ["Sub"] := rfl

/-- C1 (amended): a `tutorial` session emits no row of its own and exactly
`len(items)` item rows; any other session emits `1 + len(items)` rows, the
first tagged `Session`.  Each item row's kind tag, however, is determined
by the item's own type — `Session` when the item's type is `tutorial`,
`Sub` otherwise — independently of the containing session's type (for the
usual trees, where items carry their session's type, this coincides with
the claim). -/
theorem C1_amended (s : Session) (date e : String) (m : Metadata) (p v : Bool)
    (pl : PlenaryInfo) (rows : List Row) (s' : Session)
    (h : AppSession.to_rows s date e m p v pl = some (rows, s')) :
    rows.map (fun r => r.getD 9 "") =
      (if s.type = "tutorial" then [] else ["Session"]) ++
        s.items.map (fun i => if i.type = "tutorial" then "Session" else "Sub") ∧
    rows.length = (if s.type = "tutorial" then 0 else 1) + s.items.length := by
  unfold AppSession.to_rows at h
  cases htr : get_tracks_for_session s e with
  | none => rw [htr] at h; exact Option.noConfusion h
  | some tracks =>
    rw [htr] at h
    cases hst : sessionStep s p v pl with
    | none => rw [hst] at h; exact Option.noConfusion h
    | some r =>
      obtain ⟨s₁, d, a⟩ := r
      rw [hst] at h
      dsimp only at h
      rw [Option.some.injEq, Prod.mk.injEq] at h
      obtain ⟨hrows, -⟩ := h
      obtain ⟨hty, hitems, -, -, -⟩ := sessionStep_pres s p v pl s₁ d a hst
      rw [← hrows, hty, hitems]
      have hkind : ∀ i : Item,
          (AppItem.to_rows (inheritTimes s₁.start s₁.end_ i) date e m p v).1[9]?.getD
            "" = if i.type = "tutorial" then "Session" else "Sub" := by
        intro i
        have hk := AppItem.to_rows_kind (inheritTimes s₁.start s₁.end_ i) date e m p v
        rw [inheritTimes_type] at hk
        simpa [List.getD, beq_iff_eq] using hk
      by_cases ht : s.type = "tutorial"
      · simp [ht, itemsLoop_fst, List.map_map, Function.comp_def, hkind]
      · simp [ht, itemsLoop_fst, List.map_map, Function.comp_def, hkind,
          List.getD, Nat.add_comm]

/-- Witness for C1 (amended) at a concrete input: a poster session
with a single poster item emits two rows tagged Session and Sub. -/
theorem C1_amended_witness :
    ([["06/04/2019", "13:00", "14:00", "Research", "Poster Session A", "Foyer",
        "", "", "", "Session"],
      ["06/04/2019", "13:00", "14:00", "Research", "Poster Title", "",
        "<p>Poster abstract</p>", "Pat Poster", "", "Sub"]] : List Row).map
        (fun r => r.getD 9 "") =
      (if ("poster" : String) = "tutorial" then [] else ["Session"]) ++
        ([⟨"21", "poster", "", "", none, "", "", "", ""⟩] : List Item).map
          (fun i => if i.type = "tutorial" then "Session" else "Sub") ∧
    ([["06/04/2019", "13:00", "14:00", "Research", "Poster Session A", "Foyer",
        "", "", "", "Session"],
      ["06/04/2019", "13:00", "14:00", "Research", "Poster Title", "",
        "<p>Poster abstract</p>", "Pat Poster", "", "Sub"]] : List Row).length =
      (if ("poster" : String) = "tutorial" then 0 else 1) +
        ([⟨"21", "poster", "", "", none, "", "", "", ""⟩] : List Item).length :=
  C1_amended
    ⟨"poster", "Poster Session A", "Foyer", "", "13:00", "14:00",
      [⟨"21", "poster", "", "", none, "", "", "", ""⟩], "", "", "", "", "", ""⟩
    "06/04/2019" "main"
    (fun _ _ => ⟨"Poster Title", ["Pat Poster"], "Poster abstract", "", ""⟩)
    false false [] _ _ rfl

/-! ### Claim C5 -/

theorem sessionStep_times_keep (s : Session) (p v : Bool) (pl : PlenaryInfo)
    (s₁ : Session) (d a : String) (hst : sessionStep s p v pl = some (s₁, d, a))
    (hb : ¬(s.start = "" ∧ s.end_ = "")) :
    s₁.start = s.start ∧ s₁.end_ = s.end_ := by
  unfold sessionStep at hst
  repeat' split at hst
  all_goals try exact (Option.noConfusion hst)
  all_goals (
    rw [Option.some.injEq, Prod.mk.injEq, Prod.mk.injEq] at hst
    obtain ⟨h1, -, -⟩ := hst
    subst h1
    simp_all)

theorem sessionStep_resolved_start (s : Session) (p v : Bool) (pl : PlenaryInfo)
    (s₁ : Session) (d a : String) (hst : sessionStep s p v pl = some (s₁, d, a))
    (hty : s.type = "tutorial" ∨ s.type = "paper" ∨ s.type = "best_paper")
    (hs : s.start = "") (he : s.end_ = "") :
    ∃ i0, s.items.head? = some i0 ∧ s₁.start = i0.start := by
  unfold sessionStep at hst
  rcases hty with ht | ht | ht
  · rw [if_pos (by simp [ht]), if_pos (by simp [hs, he])] at hst
    cases hh : s.items.head? with
    | none => rw [hh] at hst; exact Option.noConfusion hst
    | some i0 =>
      rw [hh] at hst
      dsimp only at hst
      rw [Option.some.injEq, Prod.mk.injEq, Prod.mk.injEq] at hst
      obtain ⟨h1, -, -⟩ := hst
      subst h1
      exact ⟨i0, rfl, rfl⟩
  all_goals (
    rw [if_neg (by simp [ht]), if_pos (by simp [ht]), if_pos (by simp [hs, he])] at hst
    cases hh : s.items.head? with
    | none => rw [hh] at hst; exact Option.noConfusion hst
    | some i0 =>
      cases hl : s.items.getLast? with
      | none => rw [hh, hl] at hst; exact Option.noConfusion hst
      | some iN =>
        rw [hh, hl] at hst
        dsimp only at hst
        rw [Option.some.injEq, Prod.mk.injEq, Prod.mk.injEq] at hst
        obtain ⟨h1, -, -⟩ := hst
        subst h1
        exact ⟨i0, rfl, rfl⟩)

/-- C5 counterexample: the flattening does mutate its input nodes.  A
paper session entering `AppSession.to_rows` with empty start and end times
comes out of the call with its start and end fields overwritten by the
resolved values (the embedding returns the post-call node, which differs
from the input node). -/
theorem C5_counterexample :
    (AppSession.to_rows
        ⟨"paper", "Session 5", "Room 5", "", "", "",
          [⟨"p5", "paper", "9:00", "9:40", none, "", "", "", ""⟩],
          "", "", "", "", "", ""⟩
        "06/03/2019" "w5" (fun _ _ => ⟨"T", ["A"], "abs", "", ""⟩)
        false false []).map (fun pr => (pr.2.start, pr.2.end_)) =
      some ("9:00", "9:40") ∧
    (⟨"paper", "Session 5", "Room 5", "", "", "",
        [⟨"p5", "paper", "9:00", "9:40", none, "", "", "", ""⟩],
        "", "", "", "", "", ""⟩ : Session).start = "" ∧
    (⟨"paper", "Session 5", "Room 5", "", "", "",
        [⟨"p5", "paper", "9:00", "9:40", none, "", "", "", ""⟩],
        "", "", "", "", "", ""⟩ : Session).end_ = "" :=
  ⟨rfl, rfl, rfl⟩

/-- C5 (amended): the flattening is not a read-only traversal — resolved
start/end times are written back onto the session node (and inherited
times and metadata-derived fields onto its items) — but the mutation is
confined to derived fields: the session's type, title, location, chair and
the identifiers of its items are preserved, a session arriving with an
explicit start or end keeps both of its times, and a `tutorial`, `paper`
or `best_paper` session arriving with both times absent leaves the call
with its start overwritten by its first item's start. -/
theorem C5_amended (s : Session) (date e : String) (m : Metadata) (p v : Bool)
    (pl : PlenaryInfo) (rows : List Row) (s' : Session)
    (h : AppSession.to_rows s date e m p v pl = some (rows, s')) :
    s'.type = s.type ∧ s'.title = s.title ∧ s'.location = s.location ∧
    s'.chair = s.chair ∧
    s'.items.map (fun i => i.id_) = s.items.map (fun i => i.id_) ∧
    (¬(s.start = "" ∧ s.end_ = "") → s'.start = s.start ∧ s'.end_ = s.end_) ∧
    (s.type = "tutorial" ∨ s.type = "paper" ∨ s.type = "best_paper" →
      s.start = "" → s.end_ = "" →
      ∃ i0, s.items.head? = some i0 ∧ s'.start = i0.start) := by
  unfold AppSession.to_rows at h
  cases htr : get_tracks_for_session s e with
  | none => rw [htr] at h; exact Option.noConfusion h
  | some tracks =>
    rw [htr] at h
    cases hst : sessionStep s p v pl with
    | none => rw [hst] at h; exact Option.noConfusion h
    | some r =>
      obtain ⟨s₁, d, a⟩ := r
      rw [hst] at h
      dsimp only at h
      rw [Option.some.injEq, Prod.mk.injEq] at h
      obtain ⟨-, hs'⟩ := h
      obtain ⟨hty, hitems, htitle, hloc, hchair⟩ := sessionStep_pres s p v pl s₁ d a hst
      subst hs'
      refine ⟨hty, htitle, hloc, hchair, ?_, ?_, ?_⟩
      · show ((itemsLoop s₁.start s₁.end_ date e m p v s₁.items).2).map
          (fun i => i.id_) = s.items.map (fun i => i.id_)
        rw [itemsLoop_ids, hitems]
      · intro hb
        exact sessionStep_times_keep s p v pl s₁ d a hst hb
      · intro hty2 hs0 he0
        exact sessionStep_resolved_start s p v pl s₁ d a hst hty2 hs0 he0

/-- Input session for the C5 witness: a paper session with explicit
times. -/
def C5sessionIn : Session :=
  ⟨"paper", "Session 9", "Room 9", "Chair Nine", "15:00", "16:00",
    [⟨"p9", "paper", "15:00", "15:30", none, "", "", "", ""⟩],
    "", "", "", "", "", ""⟩

/-- The C5 witness session as `AppSession.to_rows` leaves it: only the
item's metadata-derived fields changed. -/
def C5sessionOut : Session :=
  ⟨"paper", "Session 9", "Room 9", "Chair Nine", "15:00", "16:00",
    [⟨"p9", "paper", "15:00", "15:30", none, "Nine Title", "Nina Nine", "", ""⟩],
    "", "", "", "", "", ""⟩

/-- Witness for C5 (amended) at a concrete input: a paper session with
explicit times keeps all its non-derived fields. -/
theorem C5_amended_witness :
    C5sessionOut.type = C5sessionIn.type ∧
    C5sessionOut.title = C5sessionIn.title ∧
    C5sessionOut.location = C5sessionIn.location ∧
    C5sessionOut.chair = C5sessionIn.chair ∧
    C5sessionOut.items.map (fun i => i.id_) =
      C5sessionIn.items.map (fun i => i.id_) ∧
    (¬(C5sessionIn.start = "" ∧ C5sessionIn.end_ = "") →
      C5sessionOut.start = C5sessionIn.start ∧
      C5sessionOut.end_ = C5sessionIn.end_) ∧
    (C5sessionIn.type = "tutorial" ∨ C5sessionIn.type = "paper" ∨
        C5sessionIn.type = "best_paper" →
      C5sessionIn.start = "" → C5sessionIn.end_ = "" →
      ∃ i0, C5sessionIn.items.head? = some i0 ∧ C5sessionOut.start = i0.start) :=
  C5_amended C5sessionIn "06/05/2019" "main"
    (fun _ _ => ⟨"Nine Title", ["Nina Nine"], "Nine abstract", "", ""⟩) false false []
    [["06/05/2019", "15:00", "16:00", "Research", "Session 9", "Room 9",
      "<p>Chair: Chair Nine</p>", "", "", "Session"],
     ["06/05/2019", "15:00", "15:30", "Research", "Nine Title", "",
      "<p>Nine abstract</p>", "Nina Nine", "", "Sub"]]
    C5sessionOut rfl

/-! ### Claim C6 -/

/-- C6: flattening the same tree and metadata twice in succession yields
two identical row sequences.  The first call may mutate the tree
(time resolution and metadata fields are written back onto the nodes), but
the mutation is a fixed point: a second run of `AppAgenda.to_rows` over
the same (post-call) tree with the same metadata produces exactly the same
ordered rows and leaves the tree unchanged. -/
theorem C6_flatten_twice_same_rows (a : Agenda) (m : Metadata) (p v : Bool)
    (pl : PlenaryInfo) (rows rows2 : List Row) (a' a'' : Agenda)
    (h1 : AppAgenda.to_rows a m p v pl = some (rows, a'))
    (h2 : AppAgenda.to_rows a' m p v pl = some (rows2, a'')) :
    rows2 = rows ∧ a'' = a' := by
  rw [agenda_to_rows_fix a m p v pl rows a' h1] at h2
  rw [Option.some.injEq, Prod.mk.injEq] at h2
  exact ⟨h2.1.symm, h2.2.symm⟩

/-- Single-day, single-session agenda used as the C6 witness input. -/
def C6agenda : Agenda :=
  ⟨"ws1", [⟨"06/03/2019",
    [Content.session ⟨"welcome", "Opening Remarks", "Hall 1", "", "9:00", "9:30",
      [], "", "", "", "", "", ""⟩]⟩]⟩

/-- Witness for C6 at a concrete input: two successive flattenings of the
same one-session agenda produce the same single row and the same tree. -/
theorem C6_flatten_twice_same_rows_witness :
    ([["06/03/2019", "9:00", "9:30", "ws1", "Opening Remarks", "Hall 1", "", "",
        "", "Session"]] : List Row) =
      [["06/03/2019", "9:00", "9:30", "ws1", "Opening Remarks", "Hall 1", "", "",
        "", "Session"]] ∧ C6agenda = C6agenda :=
  C6_flatten_twice_same_rows C6agenda (fun _ _ => ⟨"T", ["A"], "abs", "", ""⟩)
    false false [] _ _ _ _ rfl rfl

/-! ### Claim C8 -/

theorem addToSet_nodup (acc : List String) (x : String) (h : acc.Nodup) :
    (addToSet acc x).Nodup := by
  unfold addToSet
  by_cases hc : acc.contains x
  · rw [if_pos hc]
    exact h
  · rw [if_neg hc]
    refine List.Nodup.append h (List.nodup_singleton x) ?_
    intro a ha hax
    rw [List.mem_singleton] at hax
    subst hax
    exact hc (by simpa using ha)

theorem foldl_addToSet_nodup (l acc : List String) (h : acc.Nodup) :
    (l.foldl addToSet acc).Nodup := by
  induction l generalizing acc with
  | nil => exact h
  | cons a t ih =>
    rw [List.foldl_cons]
    exact ih (addToSet acc a) (addToSet_nodup acc a h)

/-- The speaker list collected from the agenda rows never contains a name
twice: it models the contents of a Python set. -/
theorem collectSpeakers_nodup (rows : List Row) (acc l : List String)
    (h : collectSpeakers rows acc = some l) (ha : acc.Nodup) : l.Nodup := by
  induction rows generalizing acc with
  | nil =>
    unfold collectSpeakers at h
    rw [Option.some.injEq] at h
    exact h ▸ ha
  | cons row rest ih =>
    unfold collectSpeakers at h
    cases haf : authorsField row with
    | none => rw [haf] at h; exact Option.noConfusion h
    | some sp =>
      rw [haf] at h
      dsimp only at h
      by_cases hsp : (sp == "") = true
      · rw [if_pos hsp] at h
        exact ih acc h ha
      · rw [if_neg hsp] at h
        exact ih _ h (foldl_addToSet_nodup _ acc ha)

/-- `drop_duplicates` on (name, email) is the identity when the keys are
already pairwise distinct and none is in `seen`. -/
theorem dropDupNameEmail_id (l : List AttendeeRecord) (seen : List (String × String))
    (hk : (l.map (fun a => (a.name, a.email))).Nodup)
    (hs : ∀ a ∈ l, (a.name, a.email) ∉ seen) :
    dropDupNameEmail l seen = l := by
  induction l generalizing seen with
  | nil => rfl
  | cons a t ih =>
    rw [List.map_cons, List.nodup_cons] at hk
    obtain ⟨hka, hkt⟩ := hk
    unfold dropDupNameEmail
    rw [if_neg (fun hcon => hs a (List.mem_cons_self a t) (by simpa using hcon))]
    congr 1
    apply ih ((a.name, a.email) :: seen) hkt
    intro b hb hcon
    rcases List.mem_cons.mp hcon with heq | hmem
    · exact hka (heq ▸ List.mem_map.mpr ⟨b, hb, rfl⟩)
    · exact hs b (List.mem_cons_of_mem a hb) hmem

/-- C8 counterexample: (a) when every collected speaker name is present in
the roster, classification raises instead of returning the partitions;
(b) with two roster rows sharing name and email, the returned speakers are
not the roster rows whose name is in the collected set together with the
synthesized records — the (name, email) deduplication drops the second
roster row (here the one with affiliation U2). -/
theorem C8_counterexample :
    classify_attendees [["d", "s", "e", "t", "ti", "l", "de", "Dana", "", "Session"]]
      [⟨"Dana", "dana@x.org", "U"⟩] = none ∧
    (classify_attendees
        [["d", "s", "e", "t", "ti", "l", "de", "Erin; Frank", "", "Session"]]
        [⟨"Erin", "erin@x.org", "U1"⟩, ⟨"Erin", "erin@x.org", "U2"⟩]).map
      (fun pr => pr.1) =
      some [⟨"Erin", "erin@x.org", "U1"⟩, ⟨"Frank", "", ""⟩] :=
  ⟨rfl, rfl⟩

/-- C8 (amended): provided the roster has no two rows sharing (name,
email) and at least one collected speaker name is absent from the roster
(otherwise classification raises — see C10), classification collects the
distinct speaker names by splitting each row's authors field on `; `
(skipping empty fields) and returns: speakers = the roster rows whose name
is in the collected set, followed by one name-only record per collected
name absent from the roster; non-speakers = exactly the roster rows whose
name is not in the set. -/
theorem C8_amended (agenda_rows : List Row) (df_attendees : List AttendeeRecord)
    (speakers : List String)
    (hc : collectSpeakers agenda_rows [] = some speakers)
    (hnodup : (df_attendees.map (fun a => (a.name, a.email))).Nodup)
    (hmiss : ∃ n ∈ speakers, n ∉ df_attendees.map (fun a => a.name)) :
    classify_attendees agenda_rows df_attendees =
      some (df_attendees.filter (fun a => speakers.contains a.name) ++
              (speakers.filter (fun n =>
                !((df_attendees.map (fun a => a.name)).contains n))).map
                (fun n => AttendeeRecord.mk n "" ""),
            df_attendees.filter (fun a => !(speakers.contains a.name))) := by
  unfold classify_attendees
  rw [hc]
  dsimp only
  have hfeq : speakers.filter (fun n =>
      !(((df_attendees.filter (fun a => speakers.contains a.name)).map
        (fun a => a.name)).contains n)) =
      speakers.filter (fun n =>
        !((df_attendees.map (fun a => a.name)).contains n)) := by
    apply List.filter_congr
    intro n hn
    congr 1
    by_cases hr : n ∈ df_attendees.map (fun a => a.name)
    · have h1 : n ∈ (df_attendees.filter
          (fun a => speakers.contains a.name)).map (fun a => a.name) := by
        rw [List.mem_map] at hr ⊢
        obtain ⟨x, hx, hxn⟩ := hr
        exact ⟨x, List.mem_filter.mpr ⟨hx, by simp [hxn, hn]⟩, hxn⟩
      rw [(by simpa using h1 : ((df_attendees.filter
          (fun a => speakers.contains a.name)).map (fun a => a.name)).contains n
            = true),
        (by simpa using hr : (df_attendees.map (fun a => a.name)).contains n = true)]
    · have h1 : n ∉ (df_attendees.filter
          (fun a => speakers.contains a.name)).map (fun a => a.name) := by
        intro hcon
        rw [List.mem_map] at hcon
        obtain ⟨x, hx, hxn⟩ := hcon
        exact hr (List.mem_map.mpr ⟨x, (List.mem_filter.mp hx).1, hxn⟩)
      rw [(by simpa using h1 : ((df_attendees.filter
          (fun a => speakers.contains a.name)).map (fun a => a.name)).contains n
            = false),
        (by simpa using hr : (df_attendees.map (fun a => a.name)).contains n = false)]
  rw [hfeq]
  obtain ⟨n0, hn0s, hn0r⟩ := hmiss
  have hmem0 : n0 ∈ speakers.filter (fun n =>
      !((df_attendees.map (fun a => a.name)).contains n)) :=
    List.mem_filter.mpr ⟨hn0s, by simpa using hn0r⟩
  cases hm : speakers.filter (fun n =>
      !((df_attendees.map (fun a => a.name)).contains n)) with
  | nil => rw [hm] at hmem0; exact absurd hmem0 (List.not_mem_nil n0)
  | cons b bs =>
    dsimp only
    have hMnodup : (b :: bs).Nodup := by
      rw [← hm]
      exact (collectSpeakers_nodup agenda_rows [] speakers hc List.nodup_nil).filter _
    have hMroster : ∀ x ∈ b :: bs, x ∉ df_attendees.map (fun a => a.name) := by
      intro x hx
      rw [← hm] at hx
      have hfx := (List.mem_filter.mp hx).2
      simpa using hfx
    rw [dropDupNameEmail_id _ _ ?keys (fun a _ => List.not_mem_nil _)]
    case keys =>
      rw [List.map_append, List.map_map]
      apply List.Nodup.append
      · exact hnodup.sublist (List.Sublist.map _ (List.filter_sublist _))
      · refine hMnodup.map ?_
        intro n1 n2 hmk
        simpa using congrArg Prod.fst hmk
      · rintro ⟨x1, x2⟩ h1 h2
        rw [List.mem_map] at h1 h2
        obtain ⟨a1, ha1, hk1⟩ := h1
        obtain ⟨n1, hn1, hk2⟩ := h2
        rw [List.mem_filter] at ha1
        have hx1 : a1.name = x1 := congrArg Prod.fst hk1
        have hx2 : n1 = x1 := congrArg Prod.fst hk2
        exact hMroster n1 hn1
          (List.mem_map.mpr ⟨a1, ha1.1, hx1.trans hx2.symm⟩)

/-- Witness for C8 (amended) at the spec's concrete example: rows with
authors `Alice Smith; Bob Lee` and `Bob Lee`, roster containing only Bob
Lee, yields Bob Lee (populated) plus a name-only Alice Smith as speakers
and no non-speaker attendees. -/
theorem C8_amended_witness :
    classify_attendees
        [["d", "9:00", "9:20", "t", "ti", "l", "de", "Alice Smith; Bob Lee", "",
          "Session"],
         ["d", "9:20", "9:40", "t", "ti", "l", "de", "Bob Lee", "", "Sub"]]
        [⟨"Bob Lee", "bob@x.org", "Univ"⟩] =
      some (([⟨"Bob Lee", "bob@x.org", "Univ"⟩] : List AttendeeRecord).filter
              (fun a => (["Alice Smith", "Bob Lee"] : List String).contains a.name) ++
              ((["Alice Smith", "Bob Lee"] : List String).filter (fun n =>
                !((([⟨"Bob Lee", "bob@x.org", "Univ"⟩] : List AttendeeRecord).map
                  (fun a => a.name)).contains n))).map
                (fun n => AttendeeRecord.mk n "" ""),
            ([⟨"Bob Lee", "bob@x.org", "Univ"⟩] : List AttendeeRecord).filter
              (fun a => !((["Alice Smith", "Bob Lee"] : List String).contains
                a.name))) :=
  C8_amended _ _ ["Alice Smith", "Bob Lee"] rfl (by decide)
    ⟨"Alice Smith", by decide, by decide⟩

end AppAgenda2019
